import Mathlib

/-!
Verification of the GCS resource scheduler
(`src/ray/gcs/gcs_server/gcs_resource_scheduler.cc`).

The C++ code is shallowly embedded: fixed-point resource quantities and the
doubles they are converted to for scoring are both modelled as `ℚ`; hash maps
keyed by node id or custom-resource id are modelled as association lists whose
list order stands in for the (unspecified) iteration order; fatal
`RAY_CHECK` failures are modelled as `none` of an `Option`-valued function.
-/

namespace Gcs

/-- Predefined resource index `CPU`.  Modelled from the spec: the predefined
resource enumeration (`scheduling_ids.h`) is not part of the sources; the spec
lists CPU, memory, object-store memory and GPU. -/
def CPU : ℕ := 0

/-- Predefined resource index `MEM`. Modelled from the spec (see `CPU`). -/
def MEM : ℕ := 1

/-- Predefined resource index `GPU`. Modelled from the spec (see `CPU`). -/
def GPU : ℕ := 2

/-- Predefined resource index `OBJECT_STORE_MEM`. Modelled from the spec
(see `CPU`). -/
def OBJECT_STORE_MEM : ℕ := 3

/-- Number of predefined resource dimensions. Modelled from the spec
(see `CPU`). -/
def PredefinedResources_MAX : ℕ := 4

/-- A `{total, available}` pair for one resource dimension of a node
(`ResourceCapacity` in the C++ resource model). -/
structure ResourceCapacity where
  total : ℚ
  available : ℚ
deriving DecidableEq, Repr

/-- One bundle's resource demand (`ResourceRequest`): an ordered sequence of
predefined-resource quantities plus a custom-resource id to quantity mapping. -/
structure ResourceRequest where
  predefined_resources : List ℚ
  custom_resources : List (ℕ × ℚ)
deriving DecidableEq, Repr

instance : Inhabited ResourceRequest := ⟨⟨[], []⟩⟩

/-- A node's resource state (`NodeResources`). -/
structure NodeResources where
  predefined_resources : List ResourceCapacity
  custom_resources : List (ℕ × ResourceCapacity)
deriving DecidableEq, Repr

/-- The shared cluster view: node id to `NodeResources`, as an association
list (the `absl::flat_hash_map` of `GetResourceView`). -/
abbrev ClusterView := List (ℕ × NodeResources)

inductive SchedulingType where
  | PACK
  | SPREAD
  | STRICT_PACK
  | STRICT_SPREAD
deriving DecidableEq, Repr

inductive SchedulingResultStatus where
  | INFEASIBLE
  | FAILED
  | SUCCESS
deriving DecidableEq, Repr

/-- A scheduling status plus one (possibly nil, i.e. `none`) node id per
bundle; `std::pair<SchedulingResultStatus, std::vector<NodeID>>`. -/
abbrev SchedulingResult := SchedulingResultStatus × List (Option ℕ)

/-- `LeastResourceScorer::Calculate`.  `none` models the fatal
`RAY_CHECK(available >= 0)`. -/
def Calculate (requested available : ℚ) : Option ℚ :=
  if available < 0 then none
  else if available < requested then some (-1)
  else if available = 0 then some 0
  else some ((available - requested) / available)

/-- The custom-resource loop of `LeastResourceScorer::Score` (second `for`
loop): look each requested custom id up on the node, bail out with `-1` when
absent or insufficient, otherwise accumulate. -/
def ScoreCustomLoop (node_resources : NodeResources) :
    List (ℕ × ℚ) → ℚ → Option ℚ
  | [], node_score => some node_score
  | (rid, request_resource) :: rest, node_score =>
    match node_resources.custom_resources.lookup rid with
    | none => some (-1)
    | some cap =>
      match Calculate request_resource cap.available with
      | none => none
      | some score =>
        if score < 0 then some (-1)
        else ScoreCustomLoop node_resources rest (node_score + score)

/-- The predefined-resource loop of `LeastResourceScorer::Score` (first `for`
loop), falling through to the custom loop when done. -/
def ScorePredefLoop (node_resources : NodeResources)
    (customs : List (ℕ × ℚ)) : List (ℚ × ℚ) → ℚ → Option ℚ
  | [], node_score => ScoreCustomLoop node_resources customs node_score
  | (request_resource, node_available_resource) :: rest, node_score =>
    match Calculate request_resource node_available_resource with
    | none => none
    | some score =>
      if score < 0 then some (-1)
      else ScorePredefLoop node_resources customs rest (node_score + score)

/-- `LeastResourceScorer::Score`. -/
def Score (required_resources : ResourceRequest)
    (node_resources : NodeResources) : Option ℚ :=
  if node_resources.predefined_resources.length <
      required_resources.predefined_resources.length then some (-1)
  else
    ScorePredefLoop node_resources required_resources.custom_resources
      (required_resources.predefined_resources.zip
        (node_resources.predefined_resources.map ResourceCapacity.available)) 0

/-- All available amounts of a node are nonnegative (the resource-model
invariant assumed by the scorer). -/
def NodeAvailNonneg (node_resources : NodeResources) : Prop :=
  (∀ cap ∈ node_resources.predefined_resources, 0 ≤ cap.available) ∧
    (∀ p ∈ node_resources.custom_resources, 0 ≤ p.2.available)

instance (node_resources : NodeResources) :
    Decidable (NodeAvailNonneg node_resources) := by
  unfold NodeAvailNonneg; infer_instance

/-- Following the spec's words for claim C4: the node fails to satisfy the
request in at least one dimension (too few predefined dimensions, a
predefined dimension with requested > available, a custom id absent from the
node, or present with requested > available). -/
def scoreSpecInfeasible (required_resources : ResourceRequest)
    (node_resources : NodeResources) : Bool :=
  decide (node_resources.predefined_resources.length <
      required_resources.predefined_resources.length) ||
  (required_resources.predefined_resources.zip
      (node_resources.predefined_resources.map ResourceCapacity.available)).any
    (fun p => decide (p.2 < p.1)) ||
  required_resources.custom_resources.any (fun p =>
    match node_resources.custom_resources.lookup p.1 with
    | none => true
    | some cap => decide (cap.available < p.2))

/-- Following the spec's words for claim C4: the sum over all requested
dimensions of `(available - requested) / available`, a dimension with
`available = 0` contributing `0`. -/
def scoreSpecSum (required_resources : ResourceRequest)
    (node_resources : NodeResources) : ℚ :=
  ((required_resources.predefined_resources.zip
      (node_resources.predefined_resources.map ResourceCapacity.available)).map
    (fun p => if p.2 = 0 then 0 else (p.2 - p.1) / p.2)).sum +
  (required_resources.custom_resources.map (fun p =>
    let a :=
      ((node_resources.custom_resources.lookup p.1).map
        ResourceCapacity.available).getD 0
    if a = 0 then 0 else (a - p.2) / a)).sum

/-- Add `c * q` to the `available` field of each node dimension, walking the
request's predefined quantities positionwise (`c = -1` deducts, `c = 1` adds
back). -/
def adjustPredef (c : ℚ) : List ℚ → List ResourceCapacity → List ResourceCapacity
  | _, [] => []
  | [], es => es
  | q :: qs, e :: es =>
    { e with available := e.available + c * q } :: adjustPredef c qs es

/-- Add `d` to the `available` field of the first entry with id `rid` (no
entry is created when the id is absent). -/
def addCustomAvail (d : ℚ) (rid : ℕ) :
    List (ℕ × ResourceCapacity) → List (ℕ × ResourceCapacity)
  | [] => []
  | (k, cap) :: rest =>
    if k = rid then (k, { cap with available := cap.available + d }) :: rest
    else (k, cap) :: addCustomAvail d rid rest

/-- Add `c` times the request to a node's available resources. -/
def nodeAdjust (c : ℚ) (req : ResourceRequest) (node : NodeResources) :
    NodeResources :=
  { predefined_resources :=
      adjustPredef c req.predefined_resources node.predefined_resources,
    custom_resources :=
      req.custom_resources.foldl (fun l p => addCustomAvail (c * p.2) p.1 l)
        node.custom_resources }

/-- Helper for `IsAvailable`: requested ≤ available positionwise, a missing
node dimension counting as zero available. -/
def predefIsAvailable : List ℚ → List ResourceCapacity → Bool
  | [], _ => true
  | q :: qs, [] => decide (q ≤ 0) && predefIsAvailable qs []
  | q :: qs, e :: es => decide (q ≤ e.available) && predefIsAvailable qs es

/-- Modelled from the spec: `NodeResources::IsAvailable` (the resource-model
header is not under `src/`) — the node satisfies the request in every
requested dimension, an absent dimension counting as zero available. -/
def IsAvailable (node : NodeResources) (req : ResourceRequest) : Bool :=
  predefIsAvailable req.predefined_resources node.predefined_resources &&
  req.custom_resources.all (fun p =>
    match node.custom_resources.lookup p.1 with
    | some cap => decide (p.2 ≤ cap.available)
    | none => decide (p.2 ≤ 0))

/-- Update the first entry of the view with the given node id. -/
def viewUpdate (node_id : ℕ) (f : NodeResources → NodeResources) :
    ClusterView → ClusterView
  | [] => []
  | (k, res) :: rest =>
    if k = node_id then (k, f res) :: rest
    else (k, res) :: viewUpdate node_id f rest

/-- Modelled from the spec: `GcsResourceManager::AcquireResources` (not under
`src/`) — atomically subtracts the request from the node's available
resources; fails (`none`) with no partial effect if any dimension would go
negative or the node is unknown. -/
def AcquireResources (view : ClusterView) (node_id : ℕ)
    (req : ResourceRequest) : Option ClusterView :=
  match view.lookup node_id with
  | none => none
  | some node =>
    if IsAvailable node req then
      some (viewUpdate node_id (nodeAdjust (-1) req) view)
    else none

/-- Modelled from the spec: `GcsResourceManager::ReleaseResources` (not under
`src/`) — adds the request back to the node's available resources. -/
def ReleaseResources (view : ClusterView) (node_id : ℕ)
    (req : ResourceRequest) : Option ClusterView :=
  match view.lookup node_id with
  | none => none
  | some _ => some (viewUpdate node_id (nodeAdjust 1 req) view)

/-- The scoring loop of `GcsResourceScheduler::GetBestNode`: track the best
`(node, score)` pair; the first candidate always replaces the empty best, a
later one only on a strictly higher score.  `none` models the fatal
`RAY_CHECK` of `GetNodeResources` on an unknown node id. -/
def GetBestNodeLoop (required_resources : ResourceRequest) (view : ClusterView) :
    List ℕ → Option (ℕ × ℚ) → Option (Option (ℕ × ℚ))
  | [], best => some best
  | node_id :: rest, best =>
    match view.lookup node_id with
    | none => none
    | some node_resources =>
      match Score required_resources node_resources with
      | none => none
      | some node_score =>
        match best with
        | none =>
          GetBestNodeLoop required_resources view rest (some (node_id, node_score))
        | some (best_id, best_score) =>
          if best_score < node_score then
            GetBestNodeLoop required_resources view rest (some (node_id, node_score))
          else
            GetBestNodeLoop required_resources view rest (some (best_id, best_score))

/-- `GcsResourceScheduler::GetBestNode`: the inner `Option` is the returned
`std::optional<NodeID>` (a best candidate with nonnegative score). -/
def GetBestNode (required_resources : ResourceRequest)
    (candidate_nodes : List ℕ) (view : ClusterView) : Option (Option ℕ) :=
  match GetBestNodeLoop required_resources view candidate_nodes none with
  | none => none
  | some none => some none
  | some (some (best_id, best_score)) =>
    if 0 ≤ best_score then some (some best_id) else some none

/-- Positionwise sum of predefined quantities, the result as long as the
longer list (the `resize` + `+=` loop of `StrictPackSchedule`). -/
def addPredef : List ℚ → List ℚ → List ℚ
  | acc, [] => acc
  | [], q :: qs => q :: addPredef [] qs
  | a :: as, q :: qs => (a + q) :: addPredef as qs

/-- Add `q` to the entry for id `rid`, inserting the id when absent
(`custom_resources[entry.first] += entry.second`). -/
def addCustomQ (rid : ℕ) (q : ℚ) : List (ℕ × ℚ) → List (ℕ × ℚ)
  | [] => [(rid, q)]
  | (k, v) :: rest =>
    if k = rid then (k, v + q) :: rest else (k, v) :: addCustomQ rid q rest

/-- The aggregation loop of `StrictPackSchedule`: sum all bundles into one
combined request. -/
def aggregateRequests (reqs : List ResourceRequest) : ResourceRequest :=
  reqs.foldl (fun acc r =>
    { predefined_resources :=
        addPredef acc.predefined_resources r.predefined_resources,
      custom_resources :=
        r.custom_resources.foldl (fun cs p => addCustomQ p.1 p.2 cs)
          acc.custom_resources })
    ⟨[], []⟩

/-- The `std::set<uint64_t>` of custom ids referenced by either bundle:
deduplicated and ascending. -/
def extraResourcesSet (a b : ResourceRequest) : List ℕ :=
  ((a.custom_resources.map Prod.fst) ++
    (b.custom_resources.map Prod.fst)).dedup.mergeSort (fun x y => decide (x ≤ y))

/-- The custom-resource loop of the sort comparator.  Both amounts are read
from `a`'s map, reproducing source line 197 (`auto b_iter =
a.custom_resources.find(r);`); `none` means the loop fell through with no
decision. -/
def customCompareLoop (a _b : ResourceRequest) : List ℕ → Option Bool
  | [] => none
  | r :: rest =>
    let a_resource := (a.custom_resources.lookup r).getD 0
    let b_resource := (a.custom_resources.lookup r).getD 0
    if a_resource ≠ b_resource then some (decide (a_resource < b_resource))
    else customCompareLoop a _b rest

/-- The trailing predefined-resource loop of the sort comparator
(`{OBJECT_STORE_MEM, MEM, CPU}`). -/
def predefCompareLoop (a b : ResourceRequest) : List ℕ → Bool
  | [] => false
  | idx :: rest =>
    if a.predefined_resources.getD idx 0 ≠ b.predefined_resources.getD idx 0 then
      decide (a.predefined_resources.getD idx 0 <
        b.predefined_resources.getD idx 0)
    else predefCompareLoop a b rest

/-- The comparator lambda of `SortRequiredResources`, parameters in source
order (`b_idx` first, `a_idx` second). -/
def compareRR (b a : ResourceRequest) : Bool :=
  if a.predefined_resources.getD GPU 0 ≠ b.predefined_resources.getD GPU 0 then
    decide (a.predefined_resources.getD GPU 0 <
      b.predefined_resources.getD GPU 0)
  else
    match customCompareLoop a b (extraResourcesSet a b) with
    | some r => r
    | none => predefCompareLoop a b [OBJECT_STORE_MEM, MEM, CPU]

/-- `GcsResourceScheduler::SortRequiredResources`: the priority permutation of
`0, ..., n-1`.  The comparator's `RAY_CHECK` on the predefined-array lengths
is modelled as an upfront check over the whole list, since which pairs
`std::sort` actually compares is unspecified; `std::sort` itself is modelled
as insertion sort (any comparator-consistent order refines it). -/
def SortRequiredResources (required_resources : List ResourceRequest) :
    Option (List ℕ) :=
  if required_resources.all
      (fun r => r.predefined_resources.length = PredefinedResources_MAX) then
    some (List.insertionSort
      (fun i j => compareRR (required_resources.getD i default)
        (required_resources.getD j default) = true)
      (List.range required_resources.length))
  else none

/-- The write loop of `SortSchedulingResult`:
`sorted_nodes[sorted_index[i]] = result.second[i]`, starting from a vector of
nil (`none`) node ids. -/
def scatterNodes (sorted_index : List ℕ) (nodes : List (Option ℕ)) :
    List (Option ℕ) :=
  (sorted_index.zip nodes).foldl (fun acc p => acc.set p.1 p.2)
    (List.replicate nodes.length none)

/-- `SortSchedulingResult`: permute a `SUCCESS` result back to the caller's
original bundle order; pass any other result through. -/
def SortSchedulingResult (result : SchedulingResult) (sorted_index : List ℕ) :
    SchedulingResult :=
  if result.1 = SchedulingResultStatus.SUCCESS then
    (result.1, scatterNodes sorted_index result.2)
  else result

/-- `GcsResourceScheduler::ReleaseTemporarilyDeductedResources`: release the
request at each index whose node id is non-nil; `none` models the fatal
`RAY_CHECK` on a failing release (and the out-of-bounds read when the node
list is longer than the request list, which no caller produces). -/
def ReleaseTemporarilyDeductedResources :
    List ResourceRequest → List (Option ℕ) → ClusterView → Option ClusterView
  | _, [], view => some view
  | [], _ :: _, _ => none
  | req :: reqs, node :: nodes, view =>
    match node with
    | none => ReleaseTemporarilyDeductedResources reqs nodes view
    | some node_id =>
      match ReleaseResources view node_id req with
      | none => none
      | some view2 => ReleaseTemporarilyDeductedResources reqs nodes view2

/-- The bundle loop of `StrictSpreadSchedule`: best node among the remaining
candidates, which is then removed from the pool; stop on the first bundle
with no feasible node. -/
def StrictSpreadLoop (view : ClusterView) :
    List ResourceRequest → List ℕ → List (Option ℕ) → Option (List (Option ℕ))
  | [], _, result_nodes => some result_nodes
  | req :: rest, candidate_nodes, result_nodes =>
    match GetBestNode req candidate_nodes view with
    | none => none
    | some (some best_node) =>
      StrictSpreadLoop view rest (candidate_nodes.erase best_node)
        (result_nodes ++ [some best_node])
    | some none => some result_nodes

/-- `GcsResourceScheduler::StrictSpreadSchedule`. -/
def StrictSpreadSchedule (required_resources_list : List ResourceRequest)
    (candidate_nodes : List ℕ) (view : ClusterView) :
    Option (SchedulingResult × ClusterView) :=
  if candidate_nodes.length < required_resources_list.length then
    some ((SchedulingResultStatus.INFEASIBLE, []), view)
  else
    match StrictSpreadLoop view required_resources_list candidate_nodes [] with
    | none => none
    | some result_nodes =>
      if result_nodes.length ≠ required_resources_list.length then
        some ((SchedulingResultStatus.FAILED, []), view)
      else some ((SchedulingResultStatus.SUCCESS, result_nodes), view)

/-- The bundle loop of `SpreadSchedule`: prefer a best node among
not-yet-chosen candidates (then move it to the chosen set), fall back to the
chosen set, stop when neither works; each assignment provisionally deducts
from the view. -/
def SpreadLoop :
    List ResourceRequest → List ℕ → List ℕ → ClusterView → List (Option ℕ) →
      Option (List (Option ℕ) × ClusterView)
  | [], _, _, view, result_nodes => some (result_nodes, view)
  | req :: rest, candidate_nodes, selected_nodes, view, result_nodes =>
    match GetBestNode req candidate_nodes view with
    | none => none
    | some (some best_node) =>
      match AcquireResources view best_node req with
      | none => none
      | some view2 =>
        SpreadLoop rest (candidate_nodes.erase best_node)
          (selected_nodes ++ [best_node]) view2 (result_nodes ++ [some best_node])
    | some none =>
      match GetBestNode req selected_nodes view with
      | none => none
      | some (some best_node) =>
        match AcquireResources view best_node req with
        | none => none
        | some view2 =>
          SpreadLoop rest candidate_nodes selected_nodes view2
            (result_nodes ++ [some best_node])
      | some none => some (result_nodes, view)

/-- `GcsResourceScheduler::SpreadSchedule`. -/
def SpreadSchedule (required_resources_list : List ResourceRequest)
    (candidate_nodes : List ℕ) (view : ClusterView) :
    Option (SchedulingResult × ClusterView) :=
  match SpreadLoop required_resources_list candidate_nodes [] view [] with
  | none => none
  | some (result_nodes, view2) =>
    match ReleaseTemporarilyDeductedResources required_resources_list
        result_nodes view2 with
    | none => none
    | some view3 =>
      if result_nodes.length ≠ required_resources_list.length then
        some ((SchedulingResultStatus.FAILED, []), view3)
      else some ((SchedulingResultStatus.SUCCESS, result_nodes), view3)

/-- `GcsResourceScheduler::StrictPackSchedule`. -/
def StrictPackSchedule (required_resources_list : List ResourceRequest)
    (candidate_nodes : List ℕ) (view : ClusterView) :
    Option (SchedulingResult × ClusterView) :=
  let aggregated_resource_request := aggregateRequests required_resources_list
  match view.find? (fun p => IsAvailable p.2 aggregated_resource_request) with
  | none => some ((SchedulingResultStatus.INFEASIBLE, []), view)
  | some _ =>
    match GetBestNode aggregated_resource_request candidate_nodes view with
    | none => none
    | some best_node =>
      let result_nodes : List (Option ℕ) :=
        match best_node with
        | some n => List.replicate required_resources_list.length (some n)
        | none => []
      if result_nodes.isEmpty then
        some ((SchedulingResultStatus.FAILED, []), view)
      else some ((SchedulingResultStatus.SUCCESS, result_nodes), view)

/-- The `(original position, bundle)` working queue of `PackSchedule`
(`emplace_back(index++, iter)`). -/
def buildQueue (index : ℕ) : List ResourceRequest → List (ℕ × ResourceRequest)
  | [] => []
  | r :: rest => (index, r) :: buildQueue (index + 1) rest

/-- The inner first-fit scan of `PackSchedule`: try every remaining queued
bundle against the chosen node, keeping the ones that do not fit. -/
def PackTryMore (best_node : ℕ) :
    List (ℕ × ResourceRequest) → ClusterView → List (Option ℕ) →
      List (ℕ × ResourceRequest) × ClusterView × List (Option ℕ)
  | [], view, result_nodes => ([], view, result_nodes)
  | (i, req) :: rest, view, result_nodes =>
    match AcquireResources view best_node req with
    | some view2 =>
      PackTryMore best_node rest view2 (result_nodes.set i (some best_node))
    | none =>
      let r := PackTryMore best_node rest view result_nodes
      ((i, req) :: r.1, r.2.1, r.2.2)

/-- The outer loop of `PackSchedule`: best node for the queue head, deduct,
first-fit the rest of the queue onto the same node, then drop that node from
the candidate pool and repeat; stop when the head has no feasible node. -/
def PackLoop :
    List (ℕ × ResourceRequest) → List ℕ → ClusterView → List (Option ℕ) →
      Option (List (ℕ × ResourceRequest) × ClusterView × List (Option ℕ))
  | [], _, view, result_nodes => some ([], view, result_nodes)
  | (i, req) :: queue, candidate_nodes, view, result_nodes =>
    match GetBestNode req candidate_nodes view with
    | none => none
    | some none => some ((i, req) :: queue, view, result_nodes)
    | some (some best_node) =>
      match AcquireResources view best_node req with
      | none => none
      | some view2 =>
        match h : PackTryMore best_node queue view2
            (result_nodes.set i (some best_node)) with
        | (queue2, view3, result3) =>
          PackLoop queue2 (candidate_nodes.erase best_node) view3 result3
termination_by q _ _ _ => q.length
decreasing_by
  simp only [List.length_cons]
  have hlen : ∀ (q : List (ℕ × ResourceRequest)) (v : ClusterView)
      (res : List (Option ℕ)),
      (PackTryMore best_node q v res).1.length ≤ q.length := by
    intro q
    induction q with
    | nil => intro v res; simp [PackTryMore]
    | cons hd tl ih =>
      intro v res
      obtain ⟨j, req2⟩ := hd
      simp only [PackTryMore]
      cases AcquireResources v best_node req2 with
      | none => simpa using Nat.succ_le_succ (ih v res)
      | some v2 => exact Nat.le_succ_of_le (ih v2 (res.set j (some best_node)))
  have hle := hlen queue view2 (result_nodes.set i (some best_node))
  rw [h] at hle
  exact Nat.lt_succ_of_le hle

/-- `GcsResourceScheduler::PackSchedule`. -/
def PackSchedule (required_resources_list : List ResourceRequest)
    (candidate_nodes : List ℕ) (view : ClusterView) :
    Option (SchedulingResult × ClusterView) :=
  match PackLoop (buildQueue 0 required_resources_list) candidate_nodes view
      (List.replicate required_resources_list.length none) with
  | none => none
  | some (queue2, view2, result_nodes) =>
    match ReleaseTemporarilyDeductedResources required_resources_list
        result_nodes view2 with
    | none => none
    | some view3 =>
      if ¬ queue2.isEmpty then some ((SchedulingResultStatus.FAILED, []), view3)
      else some ((SchedulingResultStatus.SUCCESS, result_nodes), view3)

/-- `GcsResourceScheduler::FilterCandidateNodes`: every node id of the view
passing the filter (every node id when there is no filter). -/
def FilterCandidateNodes (view : ClusterView)
    (node_filter_func : Option (ℕ → Bool)) : List ℕ :=
  (view.map Prod.fst).filter (fun node_id =>
    match node_filter_func with
    | none => true
    | some f => f node_id)

/-- The `switch (scheduling_type)` of `Schedule` for the priority-sorted
strategies; the `STRICT_PACK` arm models the `RAY_LOG(FATAL)` default (it is
dispatched before sorting and never reaches this switch). -/
def DispatchSorted (scheduling_type : SchedulingType)
    (reqs : List ResourceRequest) (candidate_nodes : List ℕ)
    (view : ClusterView) : Option (SchedulingResult × ClusterView) :=
  match scheduling_type with
  | SchedulingType.PACK => PackSchedule reqs candidate_nodes view
  | SchedulingType.SPREAD => SpreadSchedule reqs candidate_nodes view
  | SchedulingType.STRICT_SPREAD => StrictSpreadSchedule reqs candidate_nodes view
  | SchedulingType.STRICT_PACK => none

/-- `GcsResourceScheduler::Schedule`. -/
def Schedule (required_resources_list : List ResourceRequest)
    (scheduling_type : SchedulingType) (view : ClusterView)
    (node_filter_func : Option (ℕ → Bool)) :
    Option (SchedulingResult × ClusterView) :=
  let candidate_nodes := FilterCandidateNodes view node_filter_func
  if candidate_nodes.isEmpty then
    some ((SchedulingResultStatus.INFEASIBLE, []), view)
  else if scheduling_type = SchedulingType.STRICT_PACK then
    StrictPackSchedule required_resources_list candidate_nodes view
  else
    match SortRequiredResources required_resources_list with
    | none => none
    | some sorted_index =>
      let sorted_resources :=
        sorted_index.map (fun i => required_resources_list.getD i default)
      match DispatchSorted scheduling_type sorted_resources candidate_nodes view with
      | none => none
      | some (r, view2) => some (SortSchedulingResult r sorted_index, view2)

/-- Following the claim's words for C2: the custom-resource comparison loop
with each side's amount looked up in that same side's own mapping (compare
with `customCompareLoop`, which reads both from `a`'s mapping). -/
def customCompareLoopSpec (a b : ResourceRequest) : List ℕ → Option Bool
  | [] => none
  | r :: rest =>
    let a_resource := (a.custom_resources.lookup r).getD 0
    let b_resource := (b.custom_resources.lookup r).getD 0
    if a_resource ≠ b_resource then some (decide (a_resource < b_resource))
    else customCompareLoopSpec a b rest

/-- The four predefined quantities the comparator effectively orders by,
as a lexicographic key (GPU, then object store memory, memory, CPU). -/
def prioKey (r : ResourceRequest) : ℚ ×ₗ (ℚ ×ₗ (ℚ ×ₗ ℚ)) :=
  toLex (r.predefined_resources.getD GPU 0,
    toLex (r.predefined_resources.getD OBJECT_STORE_MEM 0,
      toLex (r.predefined_resources.getD MEM 0,
        r.predefined_resources.getD CPU 0)))

/-- The `(node, request)` pairs actually assigned in a result-node vector:
position `i` contributes `(n, reqs[i])` when its entry is `some n`. -/
def assignedPairs (nodes : List (Option ℕ)) (reqs : List ResourceRequest) :
    List (ℕ × ResourceRequest) :=
  (nodes.zip reqs).filterMap (fun p => p.1.map (fun n => (n, p.2)))

/-- Add each request of the pair list back onto its node (the pure effect of
a successful sequence of releases). -/
def applyRel (ps : List (ℕ × ResourceRequest)) (v : ClusterView) : ClusterView :=
  ps.foldl (fun w p => viewUpdate p.1 (nodeAdjust 1 p.2) w) v

/-- The invariant carried through `PackLoop`: releasing the recorded
assignments restores the original view `v0`, the result vector has one slot
per bundle, every queued bundle is an unassigned original bundle at its own
index, queue indices are distinct, node ids are unchanged, and every
assigned node id is still a key of the current view. -/
def PackInv (reqs : List ResourceRequest) (v0 : ClusterView)
    (queue : List (ℕ × ResourceRequest)) (view : ClusterView)
    (res : List (Option ℕ)) : Prop :=
  applyRel (assignedPairs res reqs) view = v0 ∧
  res.length = reqs.length ∧
  (∀ p ∈ queue, p.1 < reqs.length ∧ reqs.getD p.1 default = p.2 ∧
    res.getD p.1 none = none) ∧
  (queue.map Prod.fst).Nodup ∧
  view.map Prod.fst = v0.map Prod.fst ∧
  (∀ p ∈ assignedPairs res reqs, (view.lookup p.1).isSome)

/-! ### Basic facts about association-list lookups -/

theorem mem_of_lookup_eq_some {α : Type} {l : List (ℕ × α)} {k : ℕ} {v : α}
    (h : l.lookup k = some v) : (k, v) ∈ l := by
  rw [List.lookup_eq_some_iff] at h
  obtain ⟨l₁, l₂, rfl, -⟩ := h
  simp

theorem lookup_isSome_iff_mem_keys {α : Type} (l : List (ℕ × α)) (k : ℕ) :
    (l.lookup k).isSome ↔ k ∈ l.map Prod.fst := by
  rw [List.lookup_isSome_iff]
  simp only [beq_iff_eq, List.mem_map]
  constructor
  · rintro ⟨p, hp, rfl⟩
    exact ⟨p, hp, rfl⟩
  · rintro ⟨p, hp, rfl⟩
    exact ⟨p, hp, rfl⟩

/-! ### Scorer: `Calculate` and `Score` (claims C4 and C9) -/

theorem calculate_eq_of_nonneg {requested available : ℚ} (h : 0 ≤ available) :
    Calculate requested available =
      some (if available < requested then -1
        else if available = 0 then 0
        else (available - requested) / available) := by
  unfold Calculate
  rw [if_neg (not_lt.mpr h)]
  split_ifs <;> rfl

theorem calculate_term_nonneg {requested available : ℚ}
    (h : 0 ≤ available) (hfeas : ¬ available < requested) :
    0 ≤ if available = 0 then (0 : ℚ)
      else (available - requested) / available := by
  split_ifs with h0
  · exact le_rfl
  · exact div_nonneg (sub_nonneg.mpr (not_lt.mp hfeas)) h

theorem scoreCustomLoop_eq (node : NodeResources)
    (hnn : ∀ p ∈ node.custom_resources, 0 ≤ p.2.available) :
    ∀ (cs : List (ℕ × ℚ)) (acc : ℚ),
      ScoreCustomLoop node cs acc =
        if cs.any (fun p =>
            match node.custom_resources.lookup p.1 with
            | none => true
            | some cap => decide (cap.available < p.2)) then some (-1)
        else some (acc + (cs.map (fun p =>
          let a := ((node.custom_resources.lookup p.1).map
            ResourceCapacity.available).getD 0
          if a = 0 then 0 else (a - p.2) / a)).sum) := by
  intro cs
  induction cs with
  | nil => intro acc; simp [ScoreCustomLoop]
  | cons hd tl ih =>
    intro acc
    obtain ⟨rid, q⟩ := hd
    cases hlk : node.custom_resources.lookup rid with
    | none => simp [ScoreCustomLoop, hlk]
    | some cap =>
      have hca : 0 ≤ cap.available := hnn _ (mem_of_lookup_eq_some hlk)
      simp only [ScoreCustomLoop, hlk, calculate_eq_of_nonneg hca]
      by_cases hbad : cap.available < q
      · rw [if_pos hbad, if_pos (by norm_num : (-1 : ℚ) < 0)]
        simp [hlk, hbad]
      · rw [if_neg hbad,
          if_neg (not_lt.mpr (calculate_term_nonneg hca hbad)), ih]
        have hhead : (match node.custom_resources.lookup rid with
            | none => true
            | some cap => decide (cap.available < q)) = false := by
          simp [hlk, hbad]
        simp only [List.any_cons, hhead, Bool.false_or, List.map_cons,
          List.sum_cons]
        by_cases hrest : (tl.any (fun p =>
            match node.custom_resources.lookup p.1 with
            | none => true
            | some cap => decide (cap.available < p.2))) = true
        · rw [if_pos hrest, if_pos hrest]
        · rw [if_neg hrest, if_neg hrest]
          congr 1
          rw [hlk, show (Option.map ResourceCapacity.available (some cap)).getD 0 =
            cap.available from rfl]
          ring

theorem scorePredefLoop_eq (node : NodeResources) (cs : List (ℕ × ℚ)) :
    ∀ (pairs : List (ℚ × ℚ)), (∀ p ∈ pairs, 0 ≤ p.2) →
      ∀ acc, ScorePredefLoop node cs pairs acc =
        if pairs.any (fun p => decide (p.2 < p.1)) then some (-1)
        else ScoreCustomLoop node cs
          (acc + (pairs.map (fun p =>
            if p.2 = 0 then 0 else (p.2 - p.1) / p.2)).sum) := by
  intro pairs
  induction pairs with
  | nil => intro _ acc; simp [ScorePredefLoop]
  | cons hd tl ih =>
    intro hnn acc
    obtain ⟨q, a⟩ := hd
    have ha : 0 ≤ a := hnn (q, a) (by simp)
    simp only [ScorePredefLoop, calculate_eq_of_nonneg ha]
    by_cases hbad : a < q
    · rw [if_pos hbad, if_pos (by norm_num : (-1 : ℚ) < 0)]
      simp [hbad]
    · rw [if_neg hbad,
        if_neg (not_lt.mpr (calculate_term_nonneg ha hbad)),
        ih (fun p hp => hnn p (by simp [hp]))]
      have hhead : decide (a < q) = false := by simp [hbad]
      simp only [List.any_cons, hhead, Bool.false_or, List.map_cons,
        List.sum_cons]
      by_cases hrest : (tl.any (fun p => decide (p.2 < p.1))) = true
      · rw [if_pos hrest, if_pos hrest]
      · rw [if_neg hrest, if_neg hrest]
        congr 1
        ring

/-- C4: with all available amounts nonnegative, `Score` returns a value that
is negative exactly when the node fails to satisfy the request in at least
one dimension, and otherwise equals the sum over all requested dimensions of
`(available - requested) / available`, a dimension with zero available
contributing zero. -/
theorem score_negative_iff_infeasible (req : ResourceRequest)
    (node : NodeResources) (hnn : NodeAvailNonneg node) :
    ∃ v, Score req node = some v ∧
      (v < 0 ↔ scoreSpecInfeasible req node = true) ∧
      (scoreSpecInfeasible req node = false → v = scoreSpecSum req node) := by
  obtain ⟨hp, hc⟩ := hnn
  by_cases hlen : node.predefined_resources.length <
      req.predefined_resources.length
  · refine ⟨-1, by simp [Score, hlen], ?_, ?_⟩
    · simp [scoreSpecInfeasible, hlen]
    · intro hfalse
      exfalso
      simp [scoreSpecInfeasible, hlen] at hfalse
  · have hpairs : ∀ p ∈ req.predefined_resources.zip
        (node.predefined_resources.map ResourceCapacity.available), 0 ≤ p.2 := by
      intro p hp2
      obtain ⟨-, hmem⟩ := List.of_mem_zip hp2
      obtain ⟨cap, hcap, heq⟩ := List.mem_map.mp hmem
      rw [← heq]
      exact hp cap hcap
    have hscore : Score req node =
        ScorePredefLoop node req.custom_resources
          (req.predefined_resources.zip
            (node.predefined_resources.map ResourceCapacity.available)) 0 := by
      unfold Score
      rw [if_neg hlen]
    rw [scorePredefLoop_eq node req.custom_resources _ hpairs 0] at hscore
    by_cases hanyP : ((req.predefined_resources.zip
        (node.predefined_resources.map ResourceCapacity.available)).any
          (fun p => decide (p.2 < p.1))) = true
    · rw [if_pos hanyP] at hscore
      refine ⟨-1, hscore, ?_, ?_⟩
      · simp [scoreSpecInfeasible, hanyP]
      · intro hfalse
        exfalso
        simp only [scoreSpecInfeasible, hanyP] at hfalse
        simp at hfalse
    · rw [if_neg hanyP, scoreCustomLoop_eq node hc] at hscore
      by_cases hanyC : (req.custom_resources.any (fun p =>
          match node.custom_resources.lookup p.1 with
          | none => true
          | some cap => decide (cap.available < p.2))) = true
      · rw [if_pos hanyC] at hscore
        refine ⟨-1, hscore, ?_, ?_⟩
        · simp [scoreSpecInfeasible, hanyC]
        · intro hfalse
          exfalso
          simp only [scoreSpecInfeasible, hanyC] at hfalse
          simp at hfalse
      · rw [if_neg hanyC] at hscore
        have hanyPf : ∀ p ∈ req.predefined_resources.zip
            (node.predefined_resources.map ResourceCapacity.available),
            ¬ p.2 < p.1 := by
          intro p hpm
          have := List.any_eq_false.mp (Bool.eq_false_iff.mpr hanyP) p hpm
          simpa using this
        have hsumP : 0 ≤ ((req.predefined_resources.zip
            (node.predefined_resources.map ResourceCapacity.available)).map
              (fun p => if p.2 = 0 then 0 else (p.2 - p.1) / p.2)).sum := by
          apply List.sum_nonneg
          intro x hx
          obtain ⟨p, hpm, rfl⟩ := List.mem_map.mp hx
          exact calculate_term_nonneg (hpairs p hpm) (hanyPf p hpm)
        have hsumC : 0 ≤ (req.custom_resources.map (fun p =>
            let a := ((node.custom_resources.lookup p.1).map
              ResourceCapacity.available).getD 0
            if a = 0 then 0 else (a - p.2) / a)).sum := by
          apply List.sum_nonneg
          intro x hx
          obtain ⟨p, hpm, hxeq⟩ := List.mem_map.mp hx
          have hpred := List.any_eq_false.mp (Bool.eq_false_iff.mpr hanyC) p hpm
          cases hlk : node.custom_resources.lookup p.1 with
          | none => rw [hlk] at hpred; simp at hpred
          | some cap =>
            rw [hlk] at hpred
            have hbad : ¬ cap.available < p.2 := by simpa using hpred
            have hca : 0 ≤ cap.available := hc _ (mem_of_lookup_eq_some hlk)
            have hx2 : x = if cap.available = 0 then 0
                else (cap.available - p.2) / cap.available := by
              rw [← hxeq]
              simp [hlk]
            rw [hx2]
            exact calculate_term_nonneg hca hbad
        refine ⟨_, hscore, ?_, ?_⟩
        · constructor
          · intro hneg
            exfalso
            have : (0 : ℚ) ≤ 0 + _ + _ :=
              add_nonneg (add_nonneg le_rfl hsumP) hsumC
            exact absurd hneg (not_lt.mpr this)
          · intro hinf
            exfalso
            simp only [scoreSpecInfeasible, hanyP, hanyC] at hinf
            simp [hlen] at hinf
        · intro _
          unfold scoreSpecSum
          ring

/-- C9: if the scorer observes a negative available resource amount it fails
fatally (halts, modelled as `none`) rather than returning any value, and
under nonnegative availables the fatal branch is unreachable, for both
`Calculate` and a full `Score` evaluation. -/
theorem scorer_fatal_on_negative_available (requested available : ℚ)
    (req : ResourceRequest) (node : NodeResources) :
    (available < 0 → Calculate requested available = none) ∧
      (0 ≤ available → (Calculate requested available).isSome = true) ∧
      (NodeAvailNonneg node → (Score req node).isSome = true) := by
  refine ⟨?_, ?_, ?_⟩
  · intro h
    unfold Calculate
    rw [if_pos h]
  · intro h
    rw [calculate_eq_of_nonneg h]
    rfl
  · intro h
    obtain ⟨v, hv, -, -⟩ := score_negative_iff_infeasible req node h
    rw [hv]
    rfl

/-- Witness for C9 at concrete inputs. -/
theorem scorer_fatal_on_negative_available_witness :
    Calculate 1 (-1) = none ∧ (Calculate 1 2).isSome = true ∧
      (Score ⟨[1], []⟩ ⟨[⟨2, 2⟩], []⟩).isSome = true :=
  ⟨(scorer_fatal_on_negative_available 1 (-1) ⟨[], []⟩ ⟨[], []⟩).1 (by norm_num),
   (scorer_fatal_on_negative_available 1 2 ⟨[], []⟩ ⟨[], []⟩).2.1 (by norm_num),
   (scorer_fatal_on_negative_available 0 0 ⟨[1], []⟩ ⟨[⟨2, 2⟩], []⟩).2.2
     (by constructor <;> simp +arith +decide [NodeAvailNonneg])⟩

/-- Witness for C4 at a concrete request and node. -/
theorem score_negative_iff_infeasible_witness :
    ∃ v, Score ⟨[2], [(7, 1)]⟩ ⟨[⟨4, 4⟩], [(7, ⟨2, 2⟩)]⟩ = some v ∧
      (v < 0 ↔ scoreSpecInfeasible ⟨[2], [(7, 1)]⟩
        ⟨[⟨4, 4⟩], [(7, ⟨2, 2⟩)]⟩ = true) ∧
      (scoreSpecInfeasible ⟨[2], [(7, 1)]⟩ ⟨[⟨4, 4⟩], [(7, ⟨2, 2⟩)]⟩ = false →
        v = scoreSpecSum ⟨[2], [(7, 1)]⟩ ⟨[⟨4, 4⟩], [(7, ⟨2, 2⟩)]⟩) :=
  score_negative_iff_infeasible ⟨[2], [(7, 1)]⟩ ⟨[⟨4, 4⟩], [(7, ⟨2, 2⟩)]⟩
    (by constructor <;> norm_num [NodeAvailNonneg])

/-! ### Priority comparator (claims C2 and C8) -/

theorem customCompareLoop_eq_none (a b : ResourceRequest) :
    ∀ l, customCompareLoop a b l = none := by
  intro l
  induction l with
  | nil => rfl
  | cons hd tl ih => simp [customCompareLoop, ih]

theorem lex_step_iff {x y : ℚ} {c : Bool} {P : Prop} (h : c = true ↔ P) :
    ((if x ≠ y then decide (x < y) else c) = true) ↔
      (x < y ∨ (x = y ∧ P)) := by
  by_cases hxy : x ≠ y
  · rw [if_pos hxy]
    simp only [decide_eq_true_eq]
    constructor
    · exact fun hlt => Or.inl hlt
    · rintro (hlt | ⟨heq, -⟩)
      · exact hlt
      · exact absurd heq hxy
  · rw [if_neg hxy]
    rw [not_ne_iff] at hxy
    subst hxy
    simp [h]

theorem compareRR_eq_true_iff (b a : ResourceRequest) :
    compareRR b a = true ↔ prioKey a < prioKey b := by
  have e0 : (predefCompareLoop a b [] = true) ↔ False := by
    simp [predefCompareLoop]
  have e1 : (predefCompareLoop a b [CPU] = true) ↔
      (a.predefined_resources.getD CPU 0 < b.predefined_resources.getD CPU 0 ∨
        (a.predefined_resources.getD CPU 0 = b.predefined_resources.getD CPU 0 ∧
          False)) := by
    rw [show predefCompareLoop a b [CPU] =
      (if a.predefined_resources.getD CPU 0 ≠
          b.predefined_resources.getD CPU 0 then
        decide (a.predefined_resources.getD CPU 0 <
          b.predefined_resources.getD CPU 0)
      else predefCompareLoop a b []) from rfl]
    exact lex_step_iff e0
  have e2 : (predefCompareLoop a b [MEM, CPU] = true) ↔
      (a.predefined_resources.getD MEM 0 < b.predefined_resources.getD MEM 0 ∨
        (a.predefined_resources.getD MEM 0 =
            b.predefined_resources.getD MEM 0 ∧
          (a.predefined_resources.getD CPU 0 <
              b.predefined_resources.getD CPU 0 ∨
            (a.predefined_resources.getD CPU 0 =
                b.predefined_resources.getD CPU 0 ∧ False)))) := by
    rw [show predefCompareLoop a b [MEM, CPU] =
      (if a.predefined_resources.getD MEM 0 ≠
          b.predefined_resources.getD MEM 0 then
        decide (a.predefined_resources.getD MEM 0 <
          b.predefined_resources.getD MEM 0)
      else predefCompareLoop a b [CPU]) from rfl]
    exact lex_step_iff e1
  have e3 : (predefCompareLoop a b [OBJECT_STORE_MEM, MEM, CPU] = true) ↔
      (a.predefined_resources.getD OBJECT_STORE_MEM 0 <
          b.predefined_resources.getD OBJECT_STORE_MEM 0 ∨
        (a.predefined_resources.getD OBJECT_STORE_MEM 0 =
            b.predefined_resources.getD OBJECT_STORE_MEM 0 ∧
          (a.predefined_resources.getD MEM 0 <
              b.predefined_resources.getD MEM 0 ∨
            (a.predefined_resources.getD MEM 0 =
                b.predefined_resources.getD MEM 0 ∧
              (a.predefined_resources.getD CPU 0 <
                  b.predefined_resources.getD CPU 0 ∨
                (a.predefined_resources.getD CPU 0 =
                    b.predefined_resources.getD CPU 0 ∧ False)))))) := by
    rw [show predefCompareLoop a b [OBJECT_STORE_MEM, MEM, CPU] =
      (if a.predefined_resources.getD OBJECT_STORE_MEM 0 ≠
          b.predefined_resources.getD OBJECT_STORE_MEM 0 then
        decide (a.predefined_resources.getD OBJECT_STORE_MEM 0 <
          b.predefined_resources.getD OBJECT_STORE_MEM 0)
      else predefCompareLoop a b [MEM, CPU]) from rfl]
    exact lex_step_iff e2
  have e4 : (compareRR b a = true) ↔
      (a.predefined_resources.getD GPU 0 <
          b.predefined_resources.getD GPU 0 ∨
        (a.predefined_resources.getD GPU 0 =
            b.predefined_resources.getD GPU 0 ∧
          (a.predefined_resources.getD OBJECT_STORE_MEM 0 <
              b.predefined_resources.getD OBJECT_STORE_MEM 0 ∨
            (a.predefined_resources.getD OBJECT_STORE_MEM 0 =
                b.predefined_resources.getD OBJECT_STORE_MEM 0 ∧
              (a.predefined_resources.getD MEM 0 <
                  b.predefined_resources.getD MEM 0 ∨
                (a.predefined_resources.getD MEM 0 =
                    b.predefined_resources.getD MEM 0 ∧
                  (a.predefined_resources.getD CPU 0 <
                      b.predefined_resources.getD CPU 0 ∨
                    (a.predefined_resources.getD CPU 0 =
                        b.predefined_resources.getD CPU 0 ∧ False)))))))) := by
    rw [show compareRR b a =
      (if a.predefined_resources.getD GPU 0 ≠
          b.predefined_resources.getD GPU 0 then
        decide (a.predefined_resources.getD GPU 0 <
          b.predefined_resources.getD GPU 0)
      else
        match customCompareLoop a b (extraResourcesSet a b) with
        | some r => r
        | none => predefCompareLoop a b [OBJECT_STORE_MEM, MEM, CPU]) from rfl,
      customCompareLoop_eq_none]
    exact lex_step_iff e3
  rw [e4]
  simp only [prioKey, Prod.Lex.lt_iff, and_false, or_false]

/-- C8: the priority comparator is a valid strict weak ordering on bundles
with full-length predefined-resource arrays: it is irreflexive, asymmetric
and transitive, and incomparability (ties) is transitive. -/
theorem sortComparator_strict_weak_ordering (x y z : ResourceRequest)
    (hx : x.predefined_resources.length = PredefinedResources_MAX)
    (hy : y.predefined_resources.length = PredefinedResources_MAX)
    (hz : z.predefined_resources.length = PredefinedResources_MAX) :
    compareRR x x = false ∧
      (compareRR x y = true → compareRR y x = false) ∧
      (compareRR x y = true → compareRR y z = true → compareRR x z = true) ∧
      ((compareRR x y = false ∧ compareRR y x = false) →
        (compareRR y z = false ∧ compareRR z y = false) →
        (compareRR x z = false ∧ compareRR z x = false)) := by
  refine ⟨?_, ?_, ?_, ?_⟩
  · rw [Bool.eq_false_iff, Ne, compareRR_eq_true_iff]
    exact lt_irrefl _
  · intro hxy
    rw [compareRR_eq_true_iff] at hxy
    rw [Bool.eq_false_iff, Ne, compareRR_eq_true_iff]
    exact fun hyx => lt_asymm hxy hyx
  · intro hxy hyz
    rw [compareRR_eq_true_iff] at hxy hyz
    rw [compareRR_eq_true_iff]
    exact lt_trans hyz hxy
  · rintro ⟨h1, h2⟩ ⟨h3, h4⟩
    rw [Bool.eq_false_iff, Ne, compareRR_eq_true_iff] at h1 h2 h3 h4
    have e12 : prioKey x = prioKey y :=
      le_antisymm (not_lt.mp h1) (not_lt.mp h2)
    have e23 : prioKey y = prioKey z :=
      le_antisymm (not_lt.mp h3) (not_lt.mp h4)
    constructor
    · rw [Bool.eq_false_iff, Ne, compareRR_eq_true_iff, e12, e23]
      exact lt_irrefl _
    · rw [Bool.eq_false_iff, Ne, compareRR_eq_true_iff, e12, e23]
      exact lt_irrefl _

/-- Witness for C8 at three concrete full-length bundles. -/
theorem sortComparator_strict_weak_ordering_witness :
    compareRR ⟨[1, 0, 0, 0], []⟩ ⟨[1, 0, 0, 0], []⟩ = false ∧
      (compareRR ⟨[1, 0, 0, 0], []⟩ ⟨[0, 1, 0, 0], []⟩ = true →
        compareRR ⟨[0, 1, 0, 0], []⟩ ⟨[1, 0, 0, 0], []⟩ = false) ∧
      (compareRR ⟨[1, 0, 0, 0], []⟩ ⟨[0, 1, 0, 0], []⟩ = true →
        compareRR ⟨[0, 1, 0, 0], []⟩ ⟨[0, 0, 1, 0], []⟩ = true →
        compareRR ⟨[1, 0, 0, 0], []⟩ ⟨[0, 0, 1, 0], []⟩ = true) ∧
      ((compareRR ⟨[1, 0, 0, 0], []⟩ ⟨[0, 1, 0, 0], []⟩ = false ∧
          compareRR ⟨[0, 1, 0, 0], []⟩ ⟨[1, 0, 0, 0], []⟩ = false) →
        (compareRR ⟨[0, 1, 0, 0], []⟩ ⟨[0, 0, 1, 0], []⟩ = false ∧
          compareRR ⟨[0, 0, 1, 0], []⟩ ⟨[0, 1, 0, 0], []⟩ = false) →
        (compareRR ⟨[1, 0, 0, 0], []⟩ ⟨[0, 0, 1, 0], []⟩ = false ∧
          compareRR ⟨[0, 0, 1, 0], []⟩ ⟨[1, 0, 0, 0], []⟩ = false)) :=
  sortComparator_strict_weak_ordering ⟨[1, 0, 0, 0], []⟩ ⟨[0, 1, 0, 0], []⟩
    ⟨[0, 0, 1, 0], []⟩ rfl rfl rfl

/-- C2: the comparator's custom-resource loop reads both amounts from one
bundle's mapping (source line 197), so two bundles that differ only in a
custom amount compare as tied in both orders, while the own-mapping
comparison the claim describes (`customCompareLoopSpec`) distinguishes
them. -/
theorem customCompare_both_sides_from_one_map :
    customCompareLoop ⟨[0, 0, 0, 0], [(1, 5)]⟩ ⟨[0, 0, 0, 0], [(1, 7)]⟩ [1] =
        none ∧
      customCompareLoopSpec ⟨[0, 0, 0, 0], [(1, 5)]⟩ ⟨[0, 0, 0, 0], [(1, 7)]⟩
        [1] = some true ∧
      compareRR ⟨[0, 0, 0, 0], [(1, 7)]⟩ ⟨[0, 0, 0, 0], [(1, 5)]⟩ = false ∧
      compareRR ⟨[0, 0, 0, 0], [(1, 5)]⟩ ⟨[0, 0, 0, 0], [(1, 7)]⟩ = false := by
  refine ⟨customCompareLoop_eq_none _ _ _, ?_, ?_, ?_⟩
  · norm_num [customCompareLoopSpec, List.lookup]
  · rw [Bool.eq_false_iff, Ne, compareRR_eq_true_iff]
    norm_num [prioKey, Prod.Lex.lt_iff]
  · rw [Bool.eq_false_iff, Ne, compareRR_eq_true_iff]
    norm_num [prioKey, Prod.Lex.lt_iff]

/-! ### Best-node search -/

theorem score_empty_request (node : NodeResources) :
    Score ⟨[], []⟩ node = some 0 := by
  unfold Score
  rw [if_neg (by simp)]
  simp [ScorePredefLoop, ScoreCustomLoop]

theorem getBestNodeLoop_mem (req : ResourceRequest) (view : ClusterView) :
    ∀ (cands : List ℕ) (best : Option (ℕ × ℚ)) (n : ℕ) (s : ℚ),
      GetBestNodeLoop req view cands best = some (some (n, s)) →
      best = some (n, s) ∨ n ∈ cands := by
  intro cands
  induction cands with
  | nil =>
    intro best n s h
    rw [GetBestNodeLoop] at h
    exact Or.inl (Option.some_injective _ h)
  | cons c cs ih =>
    intro best n s h
    cases hlk : view.lookup c with
    | none =>
      simp only [GetBestNodeLoop, hlk] at h
      exact Option.noConfusion h
    | some res =>
      cases hsc : Score req res with
      | none =>
        simp only [GetBestNodeLoop, hlk, hsc] at h
        exact Option.noConfusion h
      | some sc =>
        cases best with
        | none =>
          simp only [GetBestNodeLoop, hlk, hsc] at h
          rcases ih (some (c, sc)) n s h with heq | hmem
          · have : c = n := congrArg (fun o => (o.getD (0, 0)).1) heq
            exact Or.inr (this ▸ List.mem_cons_self c cs)
          · exact Or.inr (List.mem_cons_of_mem c hmem)
        | some bp =>
          obtain ⟨bid, bsc⟩ := bp
          simp only [GetBestNodeLoop, hlk, hsc] at h
          by_cases hlt : bsc < sc
          · rw [if_pos hlt] at h
            rcases ih (some (c, sc)) n s h with heq | hmem
            · have : c = n := congrArg (fun o => (o.getD (0, 0)).1) heq
              exact Or.inr (this ▸ List.mem_cons_self c cs)
            · exact Or.inr (List.mem_cons_of_mem c hmem)
          · rw [if_neg hlt] at h
            rcases ih (some (bid, bsc)) n s h with heq | hmem
            · exact Or.inl heq
            · exact Or.inr (List.mem_cons_of_mem c hmem)

theorem getBestNode_mem {req : ResourceRequest} {view : ClusterView}
    {cands : List ℕ} {n : ℕ}
    (h : GetBestNode req cands view = some (some n)) : n ∈ cands := by
  cases hloop : GetBestNodeLoop req view cands none with
  | none =>
    simp only [GetBestNode, hloop] at h
    exact Option.noConfusion h
  | some best =>
    cases best with
    | none =>
      simp only [GetBestNode, hloop] at h
      exact Option.noConfusion (Option.some_injective _ h)
    | some bp =>
      obtain ⟨bid, bsc⟩ := bp
      simp only [GetBestNode, hloop] at h
      by_cases hnn : (0 : ℚ) ≤ bsc
      · rw [if_pos hnn] at h
        have hbid : bid = n := by
          have h2 := Option.some_injective _ h
          exact Option.some_injective _ h2
        subst hbid
        rcases getBestNodeLoop_mem req view cands none bid bsc hloop with
          heq | hmem
        · exact absurd heq (by simp)
        · exact hmem
      · rw [if_neg hnn] at h
        exact absurd h (by simp)

theorem getBestNodeLoop_const_zero (view : ClusterView) :
    ∀ (cands : List ℕ) (c0 : ℕ),
      (∀ m ∈ cands, (view.lookup m).isSome) →
      GetBestNodeLoop ⟨[], []⟩ view cands (some (c0, 0)) =
        some (some (c0, 0)) := by
  intro cands
  induction cands with
  | nil => intro c0 _; rfl
  | cons m ms ih =>
    intro c0 hpres
    obtain ⟨res, hres⟩ := Option.isSome_iff_exists.mp (hpres m (by simp))
    simp only [GetBestNodeLoop, hres, score_empty_request]
    rw [if_neg (lt_irrefl (0 : ℚ))]
    exact ih c0 (fun x hx => hpres x (by simp [hx]))

theorem getBestNode_empty_req (view : ClusterView) (c : ℕ) (cs : List ℕ)
    (hpres : ∀ m ∈ c :: cs, (view.lookup m).isSome) :
    GetBestNode ⟨[], []⟩ (c :: cs) view = some (some c) := by
  obtain ⟨res, hres⟩ := Option.isSome_iff_exists.mp (hpres c (by simp))
  have hloop : GetBestNodeLoop ⟨[], []⟩ view (c :: cs) none =
      some (some (c, 0)) := by
    simp only [GetBestNodeLoop, hres, score_empty_request]
    exact getBestNodeLoop_const_zero view cs c
      (fun x hx => hpres x (by simp [hx]))
  simp only [GetBestNode, hloop]
  rw [if_pos le_rfl]

theorem filterCandidate_lookup_isSome (view : ClusterView)
    (f : Option (ℕ → Bool)) (n : ℕ) (hn : n ∈ FilterCandidateNodes view f) :
    (view.lookup n).isSome := by
  rw [lookup_isSome_iff_mem_keys]
  exact List.mem_of_mem_filter hn

/-! ### Strict pack (claims C5, C6 and C10) -/

/-- C10: a `STRICT_PACK` call with an empty bundle list never succeeds:
with a non-empty candidate set and a cluster node satisfying the (empty)
aggregate, the best-node search succeeds but the empty repeated-node result
is reported as `FAILED` with an empty node list. -/
theorem strictPack_empty_bundles_failed (view : ClusterView)
    (f : Option (ℕ → Bool))
    (hcand : FilterCandidateNodes view f ≠ [])
    (havail : ∃ p ∈ view, IsAvailable p.2 (aggregateRequests []) = true) :
    Schedule [] SchedulingType.STRICT_PACK view f =
      some ((SchedulingResultStatus.FAILED, []), view) := by
  unfold Schedule
  rw [if_neg (by simpa [List.isEmpty_iff] using hcand), if_pos rfl]
  simp only [StrictPackSchedule]
  obtain ⟨p, hp, hpav⟩ := havail
  have hfind : (view.find?
      (fun p => IsAvailable p.2 (aggregateRequests []))).isSome := by
    rw [List.find?_isSome]
    exact ⟨p, hp, hpav⟩
  obtain ⟨q, hq⟩ := Option.isSome_iff_exists.mp hfind
  rw [hq]
  cases hcands : FilterCandidateNodes view f with
  | nil => exact absurd hcands hcand
  | cons c cs =>
    have hpres : ∀ m ∈ c :: cs, (view.lookup m).isSome := by
      intro m hm
      apply filterCandidate_lookup_isSome view f
      rw [hcands]
      exact hm
    have hagg : aggregateRequests ([] : List ResourceRequest) = ⟨[], []⟩ := rfl
    rw [hagg, getBestNode_empty_req view c cs hpres]
    simp

/-- Witness for C10 at a concrete one-node view. -/
theorem strictPack_empty_bundles_failed_witness :
    Schedule [] SchedulingType.STRICT_PACK
        [(1, ⟨[⟨4, 4⟩, ⟨4, 4⟩, ⟨4, 4⟩, ⟨4, 4⟩], []⟩)] none =
      some ((SchedulingResultStatus.FAILED, []),
        [(1, ⟨[⟨4, 4⟩, ⟨4, 4⟩, ⟨4, 4⟩, ⟨4, 4⟩], []⟩)]) :=
  strictPack_empty_bundles_failed
    [(1, ⟨[⟨4, 4⟩, ⟨4, 4⟩, ⟨4, 4⟩, ⟨4, 4⟩], []⟩)] none
    (by simp [FilterCandidateNodes])
    ⟨(1, ⟨[⟨4, 4⟩, ⟨4, 4⟩, ⟨4, 4⟩, ⟨4, 4⟩], []⟩), by simp, rfl⟩

/-- C6: with a non-empty candidate set, a `STRICT_PACK` `Schedule` call
returns `INFEASIBLE` exactly when no node of the entire cluster view can
satisfy the aggregate of all bundles' demands. -/
theorem strictPack_infeasible_iff (reqs : List ResourceRequest)
    (view : ClusterView) (f : Option (ℕ → Bool))
    (st : SchedulingResultStatus) (ns : List (Option ℕ)) (v2 : ClusterView)
    (hcand : FilterCandidateNodes view f ≠ [])
    (hrun : Schedule reqs SchedulingType.STRICT_PACK view f =
      some ((st, ns), v2)) :
    (st = SchedulingResultStatus.INFEASIBLE ↔
      ∀ p ∈ view, IsAvailable p.2 (aggregateRequests reqs) = false) := by
  unfold Schedule at hrun
  rw [if_neg (by simpa [List.isEmpty_iff] using hcand), if_pos rfl] at hrun
  simp only [StrictPackSchedule] at hrun
  cases hfind : view.find?
      (fun p => IsAvailable p.2 (aggregateRequests reqs)) with
  | none =>
    simp only [hfind, Option.some.injEq, Prod.mk.injEq] at hrun
    obtain ⟨⟨hst, -⟩, -⟩ := hrun
    subst hst
    simp only [true_iff]
    intro p hp
    exact Bool.eq_false_iff.mpr (List.find?_eq_none.mp hfind p hp)
  | some q =>
    have hqt : IsAvailable q.2 (aggregateRequests reqs) = true := by
      have h2 := List.find?_some hfind
      exact h2
    have hqm : q ∈ view := List.mem_of_find?_eq_some hfind
    have hst : st ≠ SchedulingResultStatus.INFEASIBLE := by
      simp only [hfind] at hrun
      cases hbest : GetBestNode (aggregateRequests reqs)
          (FilterCandidateNodes view f) view with
      | none =>
        rw [hbest] at hrun
        exact Option.noConfusion hrun
      | some bn =>
        simp only [hbest] at hrun
        split at hrun <;>
          · simp only [Option.some.injEq, Prod.mk.injEq] at hrun
            obtain ⟨⟨hst, -⟩, -⟩ := hrun
            subst hst
            simp
    constructor
    · intro h
      exact absurd h hst
    · intro hall
      exact absurd (hall q hqm) (by simp [hqt])

/-- Witness for C6 at a concrete run. -/
theorem strictPack_infeasible_iff_witness :
    (SchedulingResultStatus.SUCCESS = SchedulingResultStatus.INFEASIBLE ↔
      ∀ p ∈ [((1 : ℕ), (⟨[⟨4, 4⟩, ⟨4, 4⟩, ⟨4, 4⟩, ⟨4, 4⟩], []⟩ :
          NodeResources))],
        IsAvailable p.2 (aggregateRequests [⟨[2, 0, 0, 0], []⟩]) = false) :=
  strictPack_infeasible_iff [⟨[2, 0, 0, 0], []⟩]
    [(1, ⟨[⟨4, 4⟩, ⟨4, 4⟩, ⟨4, 4⟩, ⟨4, 4⟩], []⟩)] none
    SchedulingResultStatus.SUCCESS [some 1]
    [(1, ⟨[⟨4, 4⟩, ⟨4, 4⟩, ⟨4, 4⟩, ⟨4, 4⟩], []⟩)]
    (by simp [FilterCandidateNodes])
    (by norm_num [Schedule, FilterCandidateNodes, StrictPackSchedule,
      aggregateRequests, addPredef, addCustomQ, IsAvailable,
      predefIsAvailable, GetBestNode, GetBestNodeLoop, Score,
      ScorePredefLoop, ScoreCustomLoop, Calculate, List.lookup, List.find?])

/-- C5, amended with a non-empty bundle list: for every `STRICT_PACK`
`Schedule` call with at least one bundle that passes the whole-cluster
feasibility pre-check, a found best candidate yields `SUCCESS` with that
single node repeated once per input bundle, and no best candidate yields
`FAILED`. -/
theorem strictPack_success_or_failed (reqs : List ResourceRequest)
    (view : ClusterView) (f : Option (ℕ → Bool))
    (st : SchedulingResultStatus) (ns : List (Option ℕ)) (v2 : ClusterView)
    (hne : reqs ≠ [])
    (hcand : FilterCandidateNodes view f ≠ [])
    (hpre : ∃ p ∈ view, IsAvailable p.2 (aggregateRequests reqs) = true)
    (hrun : Schedule reqs SchedulingType.STRICT_PACK view f =
      some ((st, ns), v2)) :
    (∀ n, GetBestNode (aggregateRequests reqs)
        (FilterCandidateNodes view f) view = some (some n) →
      st = SchedulingResultStatus.SUCCESS ∧
        ns = List.replicate reqs.length (some n)) ∧
    (GetBestNode (aggregateRequests reqs)
        (FilterCandidateNodes view f) view = some none →
      st = SchedulingResultStatus.FAILED ∧ ns = []) := by
  unfold Schedule at hrun
  rw [if_neg (by simpa [List.isEmpty_iff] using hcand), if_pos rfl] at hrun
  simp only [StrictPackSchedule] at hrun
  obtain ⟨p, hp, hpav⟩ := hpre
  have hfindS : (view.find?
      (fun p => IsAvailable p.2 (aggregateRequests reqs))).isSome := by
    rw [List.find?_isSome]
    exact ⟨p, hp, hpav⟩
  obtain ⟨q, hq⟩ := Option.isSome_iff_exists.mp hfindS
  simp only [hq] at hrun
  constructor
  · intro n hbest
    simp only [hbest] at hrun
    have hrepl : ¬ ((List.replicate reqs.length (some n)).isEmpty = true) := by
      rw [List.isEmpty_iff, List.replicate_eq_nil_iff]
      exact fun h0 => hne (List.length_eq_zero.mp h0)
    rw [if_neg hrepl] at hrun
    simp only [Option.some.injEq, Prod.mk.injEq] at hrun
    obtain ⟨⟨hst, hns⟩, -⟩ := hrun
    exact ⟨hst.symm, hns.symm⟩
  · intro hbest
    simp only [hbest, List.isEmpty_nil, if_true] at hrun
    simp only [Option.some.injEq, Prod.mk.injEq] at hrun
    obtain ⟨⟨hst, hns⟩, -⟩ := hrun
    exact ⟨hst.symm, hns.symm⟩

/-- Counterexample to C5 as frozen: with an empty bundle list, the pre-check
passes and a best candidate node is found, yet the call returns `FAILED`
with an empty node list instead of `SUCCESS`. -/
theorem strictPack_claim_fails_on_empty_bundles :
    GetBestNode (aggregateRequests [])
        (FilterCandidateNodes [(1, ⟨[⟨4, 4⟩], []⟩)] none)
        [(1, ⟨[⟨4, 4⟩], []⟩)] = some (some 1) ∧
      (∃ p ∈ [((1 : ℕ), (⟨[⟨4, 4⟩], []⟩ : NodeResources))],
        IsAvailable p.2 (aggregateRequests []) = true) ∧
      Schedule [] SchedulingType.STRICT_PACK [(1, ⟨[⟨4, 4⟩], []⟩)] none =
        some ((SchedulingResultStatus.FAILED, []), [(1, ⟨[⟨4, 4⟩], []⟩)]) := by
  refine ⟨?_, ⟨(1, ⟨[⟨4, 4⟩], []⟩), by simp, rfl⟩, ?_⟩
  · norm_num [GetBestNode, GetBestNodeLoop, Score, ScorePredefLoop,
      ScoreCustomLoop, Calculate, aggregateRequests, FilterCandidateNodes,
      List.lookup]
  · norm_num [Schedule, FilterCandidateNodes, StrictPackSchedule,
      aggregateRequests, IsAvailable, predefIsAvailable, GetBestNode,
      GetBestNodeLoop, Score, ScorePredefLoop, ScoreCustomLoop, Calculate,
      List.lookup, List.find?]

/-- Witness for the amended C5 at a concrete run. -/
theorem strictPack_success_or_failed_witness :
    (∀ n, GetBestNode (aggregateRequests [⟨[2, 0, 0, 0], []⟩])
        (FilterCandidateNodes [(1, ⟨[⟨4, 4⟩, ⟨4, 4⟩, ⟨4, 4⟩, ⟨4, 4⟩], []⟩)]
          none)
        [(1, ⟨[⟨4, 4⟩, ⟨4, 4⟩, ⟨4, 4⟩, ⟨4, 4⟩], []⟩)] = some (some n) →
      SchedulingResultStatus.SUCCESS = SchedulingResultStatus.SUCCESS ∧
        [some 1] = List.replicate [(⟨[2, 0, 0, 0], []⟩ :
          ResourceRequest)].length (some n)) ∧
    (GetBestNode (aggregateRequests [⟨[2, 0, 0, 0], []⟩])
        (FilterCandidateNodes [(1, ⟨[⟨4, 4⟩, ⟨4, 4⟩, ⟨4, 4⟩, ⟨4, 4⟩], []⟩)]
          none)
        [(1, ⟨[⟨4, 4⟩, ⟨4, 4⟩, ⟨4, 4⟩, ⟨4, 4⟩], []⟩)] = some none →
      SchedulingResultStatus.SUCCESS = SchedulingResultStatus.FAILED ∧
        [some 1] = ([] : List (Option ℕ))) :=
  strictPack_success_or_failed [⟨[2, 0, 0, 0], []⟩]
    [(1, ⟨[⟨4, 4⟩, ⟨4, 4⟩, ⟨4, 4⟩, ⟨4, 4⟩], []⟩)] none
    SchedulingResultStatus.SUCCESS [some 1]
    [(1, ⟨[⟨4, 4⟩, ⟨4, 4⟩, ⟨4, 4⟩, ⟨4, 4⟩], []⟩)]
    (by simp)
    (by simp [FilterCandidateNodes])
    ⟨(1, ⟨[⟨4, 4⟩, ⟨4, 4⟩, ⟨4, 4⟩, ⟨4, 4⟩], []⟩), by simp,
      by norm_num [IsAvailable, predefIsAvailable, aggregateRequests,
        addPredef, List.lookup]⟩
    (by norm_num [Schedule, FilterCandidateNodes, StrictPackSchedule,
      aggregateRequests, addPredef, addCustomQ, IsAvailable,
      predefIsAvailable, GetBestNode, GetBestNodeLoop, Score,
      ScorePredefLoop, ScoreCustomLoop, Calculate, List.lookup, List.find?])

/-! ### The priority permutation and `SortSchedulingResult` -/

theorem sortRequiredResources_perm {reqs : List ResourceRequest}
    {idx : List ℕ} (h : SortRequiredResources reqs = some idx) :
    idx.Perm (List.range reqs.length) := by
  unfold SortRequiredResources at h
  split at h
  · have h2 := Option.some_injective _ h
    rw [← h2]
    exact List.perm_insertionSort _ _
  · exact Option.noConfusion h

theorem sortRequiredResources_length {reqs : List ResourceRequest}
    {idx : List ℕ} (h : SortRequiredResources reqs = some idx) :
    idx.length = reqs.length := by
  rw [(sortRequiredResources_perm h).length_eq, List.length_range]

theorem getD_set_ne {α : Type} (l : List α) (i j : ℕ) (v d : α)
    (hij : i ≠ j) : (l.set i v).getD j d = l.getD j d := by
  simp [List.getD_eq_getElem?_getD, List.getElem?_set_ne hij]

theorem getD_set_self {α : Type} (l : List α) (i : ℕ) (v d : α)
    (hi : i < l.length) : (l.set i v).getD i d = v := by
  simp [List.getD_eq_getElem?_getD, List.getElem?_set_self hi]

theorem zip_getD_mem {α β : Type} (d₁ : α) (d₂ : β) :
    ∀ (l₁ : List α) (l₂ : List β) (j : ℕ), j < l₁.length → j < l₂.length →
      (l₁.getD j d₁, l₂.getD j d₂) ∈ l₁.zip l₂ := by
  intro l₁
  induction l₁ with
  | nil => intro l₂ j hj _; exact absurd hj (by simp)
  | cons a as ih =>
    intro l₂ j hj₁ hj₂
    cases l₂ with
    | nil => exact absurd hj₂ (by simp)
    | cons b bs =>
      cases j with
      | zero => simp
      | succ j =>
        have := ih bs j (by simpa using hj₁) (by simpa using hj₂)
        simpa using Or.inr this

theorem foldl_set_length {α : Type} :
    ∀ (ws : List (ℕ × α)) (acc : List α),
      (ws.foldl (fun a p => a.set p.1 p.2) acc).length = acc.length := by
  intro ws
  induction ws with
  | nil => intro acc; rfl
  | cons hd tl ih =>
    intro acc
    rw [List.foldl_cons, ih, List.length_set]

theorem foldl_set_getD_not_mem {α : Type} (d : α) :
    ∀ (ws : List (ℕ × α)) (acc : List α) (i : ℕ), i ∉ ws.map Prod.fst →
      (ws.foldl (fun a p => a.set p.1 p.2) acc).getD i d = acc.getD i d := by
  intro ws
  induction ws with
  | nil => intro acc i _; rfl
  | cons hd tl ih =>
    intro acc i hi
    obtain ⟨j, v⟩ := hd
    simp only [List.map_cons, List.mem_cons, not_or] at hi
    rw [List.foldl_cons, ih (acc.set j v) i hi.2,
      getD_set_ne acc j i v d (fun h => hi.1 h.symm)]

theorem foldl_set_getD_mem {α : Type} (d : α) :
    ∀ (ws : List (ℕ × α)) (acc : List α), (ws.map Prod.fst).Nodup →
      ∀ p ∈ ws, p.1 < acc.length →
        (ws.foldl (fun a p => a.set p.1 p.2) acc).getD p.1 d = p.2 := by
  intro ws
  induction ws with
  | nil => intro acc _ p hp; exact absurd hp (by simp)
  | cons hd tl ih =>
    intro acc hnd p hp hbound
    obtain ⟨j, v⟩ := hd
    simp only [List.map_cons, List.nodup_cons] at hnd
    rcases List.mem_cons.mp hp with heq | hmem
    · have h1 : p.1 = j := by rw [heq]
      have h2 : p.2 = v := by rw [heq]
      rw [h1, h2, List.foldl_cons,
        foldl_set_getD_not_mem d tl (acc.set j v) j hnd.1,
        getD_set_self acc j v d (h1 ▸ hbound)]
    · rw [List.foldl_cons]
      exact ih (acc.set j v) hnd.2 p hmem (by rw [List.length_set]; exact hbound)

theorem scatterNodes_length (idx : List ℕ) (nodes : List (Option ℕ)) :
    (scatterNodes idx nodes).length = nodes.length := by
  unfold scatterNodes
  rw [foldl_set_length, List.length_replicate]

theorem scatterNodes_getD (idx : List ℕ) (nodes : List (Option ℕ))
    (hnd : idx.Nodup) (hlen : idx.length = nodes.length)
    (hbnd : ∀ i ∈ idx, i < nodes.length) (j : ℕ) (hj : j < idx.length) :
    (scatterNodes idx nodes).getD (idx.getD j 0) none = nodes.getD j none := by
  unfold scatterNodes
  have hfst : (idx.zip nodes).map Prod.fst = idx :=
    List.map_fst_zip idx nodes (le_of_eq hlen)
  have hmem : (idx.getD j 0, nodes.getD j none) ∈ idx.zip nodes :=
    zip_getD_mem 0 none idx nodes j hj (hlen ▸ hj)
  have hgd : idx.getD j 0 ∈ idx := by
    rw [List.getD_eq_getElem idx 0 hj]
    exact List.getElem_mem hj
  have := foldl_set_getD_mem none (idx.zip nodes)
    (List.replicate nodes.length none) (by rw [hfst]; exact hnd)
    (idx.getD j 0, nodes.getD j none) hmem
    (by rw [List.length_replicate]; exact hbnd _ hgd)
  exact this

theorem scatterNodes_nodup (idx : List ℕ) (nodes : List (Option ℕ))
    (hperm : idx.Perm (List.range nodes.length)) (hnd : nodes.Nodup) :
    (scatterNodes idx nodes).Nodup := by
  have hlen : idx.length = nodes.length := by
    rw [hperm.length_eq, List.length_range]
  have hidxnd : idx.Nodup := hperm.nodup_iff.mpr (List.nodup_range _)
  have hbnd : ∀ i ∈ idx, i < nodes.length := fun i hi =>
    List.mem_range.mp (hperm.mem_iff.mp hi)
  have hslen : (scatterNodes idx nodes).length = nodes.length :=
    scatterNodes_length idx nodes
  have hsurj : ∀ p < nodes.length, ∃ jp < idx.length, idx.getD jp 0 = p := by
    intro p hp
    have hpmem : p ∈ idx := hperm.mem_iff.mpr (List.mem_range.mpr hp)
    obtain ⟨jp, hjp⟩ := List.get_of_mem hpmem
    refine ⟨jp.val, jp.isLt, ?_⟩
    rw [List.getD_eq_getElem idx 0 jp.isLt, ← hjp]
    simp [List.get_eq_getElem]
  rw [List.nodup_iff_getElem?_ne_getElem?]
  intro p q hpq hq hne
  rw [hslen] at hq
  have hp : p < nodes.length := lt_trans hpq hq
  obtain ⟨jp, hjp, hjpe⟩ := hsurj p hp
  obtain ⟨jq, hjq, hjqe⟩ := hsurj q hq
  have hsp : (scatterNodes idx nodes).getD p none = nodes.getD jp none := by
    rw [← hjpe]
    exact scatterNodes_getD idx nodes hidxnd hlen hbnd jp hjp
  have hsq : (scatterNodes idx nodes).getD q none = nodes.getD jq none := by
    rw [← hjqe]
    exact scatterNodes_getD idx nodes hidxnd hlen hbnd jq hjq
  have hpe : (scatterNodes idx nodes)[p]? = some (nodes.getD jp none) := by
    rw [← hsp, List.getD_eq_getElem?_getD, List.getElem?_eq_getElem
      (by rw [hslen]; exact hp)]
    rfl
  have hqe : (scatterNodes idx nodes)[q]? = some (nodes.getD jq none) := by
    rw [← hsq, List.getD_eq_getElem?_getD, List.getElem?_eq_getElem
      (by rw [hslen]; exact hq)]
    rfl
  rw [hpe, hqe] at hne
  have hjne : jp ≠ jq := by
    intro hj
    rw [hj, hjqe] at hjpe
    exact absurd hjpe.symm (Nat.ne_of_lt hpq)
  have hnodeseq : nodes.getD jp none = nodes.getD jq none :=
    Option.some_injective _ hne
  have hcontra : nodes[jp]? = nodes[jq]? := by
    rw [List.getElem?_eq_getElem (hlen ▸ hjp),
      List.getElem?_eq_getElem (hlen ▸ hjq)]
    rw [← List.getD_eq_getElem nodes none (hlen ▸ hjp),
      ← List.getD_eq_getElem nodes none (hlen ▸ hjq), hnodeseq]
  have hnodup := List.nodup_iff_getElem?_ne_getElem?.mp hnd
  rcases Nat.lt_trichotomy jp jq with hlt | heq | hgt
  · exact hnodup jp jq hlt (hlen ▸ hjq) hcontra
  · exact hjne heq
  · exact hnodup jq jp hgt (hlen ▸ hjp) hcontra.symm

/-! ### Strategy result inversion -/

theorem strictPackSchedule_success_shape {reqs : List ResourceRequest}
    {cands : List ℕ} {view : ClusterView} {ns : List (Option ℕ)}
    {v2 : ClusterView}
    (h : StrictPackSchedule reqs cands view =
      some ((SchedulingResultStatus.SUCCESS, ns), v2)) :
    ∃ n, ns = List.replicate reqs.length (some n) := by
  simp only [StrictPackSchedule] at h
  split at h
  · simp at h
  · split at h
    · exact Option.noConfusion h
    · rename_i best_node _
      cases best_node with
      | none => simp at h
      | some n =>
        split at h
        · simp at h
        · simp only [Option.some.injEq, Prod.mk.injEq] at h
          exact ⟨n, h.1.2.symm⟩

theorem strictSpreadSchedule_inv {reqs : List ResourceRequest}
    {cands : List ℕ} {view : ClusterView} {st : SchedulingResultStatus}
    {ns : List (Option ℕ)} {v2 : ClusterView}
    (h : StrictSpreadSchedule reqs cands view = some ((st, ns), v2)) :
    v2 = view ∧
      (st = SchedulingResultStatus.SUCCESS →
        ns.length = reqs.length ∧
          StrictSpreadLoop view reqs cands [] = some ns) ∧
      (cands.length < reqs.length →
        st = SchedulingResultStatus.INFEASIBLE ∧ ns = []) := by
  unfold StrictSpreadSchedule at h
  split at h
  · simp only [Option.some.injEq, Prod.mk.injEq] at h
    obtain ⟨⟨hst, hns⟩, hv⟩ := h
    subst hst hns hv
    exact ⟨rfl, fun hsu => absurd hsu (by decide), fun _ => ⟨rfl, rfl⟩⟩
  · rename_i hsize
    cases hloop : StrictSpreadLoop view reqs cands [] with
    | none =>
      simp only [hloop] at h
      exact Option.noConfusion h
    | some ns' =>
      simp only [hloop] at h
      split at h
      · simp only [Option.some.injEq, Prod.mk.injEq] at h
        obtain ⟨⟨hst, hns⟩, hv⟩ := h
        subst hst hns hv
        exact ⟨rfl, fun hsu => absurd hsu (by decide),
          fun hlt => absurd hlt hsize⟩
      · rename_i hlen
        simp only [Option.some.injEq, Prod.mk.injEq] at h
        obtain ⟨⟨hst, hns⟩, hv⟩ := h
        subst hst hns hv
        exact ⟨rfl, fun _ => ⟨not_ne_iff.mp hlen, rfl⟩,
          fun hlt => absurd hlt hsize⟩

theorem spreadSchedule_success_length {reqs : List ResourceRequest}
    {cands : List ℕ} {view : ClusterView} {ns : List (Option ℕ)}
    {v2 : ClusterView}
    (h : SpreadSchedule reqs cands view =
      some ((SchedulingResultStatus.SUCCESS, ns), v2)) :
    ns.length = reqs.length := by
  unfold SpreadSchedule at h
  cases hloop : SpreadLoop reqs cands [] view [] with
  | none =>
    simp only [hloop] at h
    exact Option.noConfusion h
  | some p =>
    obtain ⟨ns', view'⟩ := p
    simp only [hloop] at h
    cases hrel : ReleaseTemporarilyDeductedResources reqs ns' view' with
    | none =>
      simp only [hrel] at h
      exact Option.noConfusion h
    | some view3 =>
      simp only [hrel] at h
      split at h
      · simp at h
      · rename_i hlen
        simp only [Option.some.injEq, Prod.mk.injEq] at h
        obtain ⟨⟨-, hns⟩, -⟩ := h
        subst hns
        exact not_ne_iff.mp hlen

theorem packTryMore_res_length (n : ℕ) :
    ∀ (q : List (ℕ × ResourceRequest)) (view : ClusterView)
      (res : List (Option ℕ)),
      (PackTryMore n q view res).2.2.length = res.length := by
  intro q
  induction q with
  | nil => intro view res; rfl
  | cons hd tl ih =>
    intro view res
    obtain ⟨i, req⟩ := hd
    simp only [PackTryMore]
    cases AcquireResources view n req with
    | none => exact ih view res
    | some view2 => rw [ih view2 (res.set i (some n)), List.length_set]

theorem packLoop_res_length :
    ∀ (q : List (ℕ × ResourceRequest)) (c : List ℕ) (v : ClusterView)
      (res : List (Option ℕ)) (qF : List (ℕ × ResourceRequest))
      (vF : ClusterView) (resF : List (Option ℕ)),
      PackLoop q c v res = some (qF, vF, resF) → resF.length = res.length := by
  intro q c v res
  induction q, c, v, res using PackLoop.induct with
  | case1 c v res =>
    intro qF vF resF h
    rw [PackLoop] at h
    simp only [Option.some.injEq, Prod.mk.injEq] at h
    rw [← h.2.2]
  | case2 i req queue c v res hbest =>
    intro qF vF resF h
    simp only [PackLoop, hbest] at h
    exact Option.noConfusion h
  | case3 i req queue c v res hbest =>
    intro qF vF resF h
    simp only [PackLoop, hbest] at h
    simp only [Option.some.injEq, Prod.mk.injEq] at h
    rw [← h.2.2]
  | case4 i req queue c v res best hbest hacq =>
    intro qF vF resF h
    simp only [PackLoop, hbest, hacq] at h
    exact Option.noConfusion h
  | case5 i req queue c v res best hbest view2 hacq queue2 view3 result3 hpt ih =>
    intro qF vF resF h
    simp only [PackLoop, hbest, hacq, hpt] at h
    have hlen := ih qF vF resF h
    have hpt_len := packTryMore_res_length best queue view2
      (res.set i (some best))
    rw [hpt] at hpt_len
    simp only at hpt_len
    rw [hlen, hpt_len, List.length_set]

theorem packSchedule_success_length {reqs : List ResourceRequest}
    {cands : List ℕ} {view : ClusterView} {ns : List (Option ℕ)}
    {v2 : ClusterView}
    (h : PackSchedule reqs cands view =
      some ((SchedulingResultStatus.SUCCESS, ns), v2)) :
    ns.length = reqs.length := by
  unfold PackSchedule at h
  cases hloop : PackLoop (buildQueue 0 reqs) cands view
      (List.replicate reqs.length none) with
  | none =>
    simp only [hloop] at h
    exact Option.noConfusion h
  | some p =>
    obtain ⟨qF, vF, resF⟩ := p
    simp only [hloop] at h
    cases hrel : ReleaseTemporarilyDeductedResources reqs resF vF with
    | none =>
      simp only [hrel] at h
      exact Option.noConfusion h
    | some view3 =>
      simp only [hrel] at h
      split at h
      · simp at h
      · simp only [Option.some.injEq, Prod.mk.injEq] at h
        obtain ⟨⟨-, hns⟩, -⟩ := h
        subst hns
        rw [packLoop_res_length _ _ _ _ _ _ _ hloop, List.length_replicate]

theorem dispatchSorted_success_length {t : SchedulingType}
    {reqs : List ResourceRequest} {cands : List ℕ} {view : ClusterView}
    {ns : List (Option ℕ)} {v2 : ClusterView}
    (h : DispatchSorted t reqs cands view =
      some ((SchedulingResultStatus.SUCCESS, ns), v2)) :
    ns.length = reqs.length := by
  cases t with
  | PACK => exact packSchedule_success_length h
  | SPREAD => exact spreadSchedule_success_length h
  | STRICT_SPREAD =>
    exact ((strictSpreadSchedule_inv h).2.1 rfl).1
  | STRICT_PACK => exact Option.noConfusion h

/-- C3: every `SUCCESS` result of `Schedule` has exactly one node id per
input bundle, and for the priority-sorted strategies (everything but
`STRICT_PACK`) the result is the strategy's result scattered back through
the priority permutation, so original bundle `idx[j]` receives the node the
strategy assigned at sorted position `j`. -/
theorem schedule_success_original_order (reqs : List ResourceRequest)
    (t : SchedulingType) (view : ClusterView) (f : Option (ℕ → Bool))
    (ns : List (Option ℕ)) (v2 : ClusterView)
    (hrun : Schedule reqs t view f =
      some ((SchedulingResultStatus.SUCCESS, ns), v2)) :
    ns.length = reqs.length ∧
      (t ≠ SchedulingType.STRICT_PACK →
        ∃ idx inner v3, SortRequiredResources reqs = some idx ∧
          DispatchSorted t (idx.map (fun i => reqs.getD i default))
            (FilterCandidateNodes view f) view =
            some ((SchedulingResultStatus.SUCCESS, inner), v3) ∧
          ns = scatterNodes idx inner ∧
          ∀ j, j < reqs.length →
            ns.getD (idx.getD j 0) none = inner.getD j none) := by
  unfold Schedule at hrun
  by_cases hemp : (FilterCandidateNodes view f).isEmpty = true
  · rw [if_pos hemp] at hrun
    simp at hrun
  rw [if_neg hemp] at hrun
  by_cases ht : t = SchedulingType.STRICT_PACK
  · rw [if_pos ht] at hrun
    obtain ⟨n, hn⟩ := strictPackSchedule_success_shape hrun
    subst hn
    exact ⟨List.length_replicate _ _, fun htne => absurd ht htne⟩
  rw [if_neg ht] at hrun
  cases hsort : SortRequiredResources reqs with
  | none =>
    simp only [hsort] at hrun
    exact Option.noConfusion hrun
  | some idx =>
    simp only [hsort] at hrun
    cases hdisp : DispatchSorted t (idx.map (fun i => reqs.getD i default))
        (FilterCandidateNodes view f) view with
    | none =>
      simp only [hdisp] at hrun
      exact Option.noConfusion hrun
    | some p =>
      obtain ⟨r, view2⟩ := p
      obtain ⟨st', inner⟩ := r
      simp only [hdisp] at hrun
      simp only [Option.some.injEq, Prod.mk.injEq] at hrun
      obtain ⟨hres, hv2⟩ := hrun
      by_cases hst' : st' = SchedulingResultStatus.SUCCESS
      · subst hst'
        rw [SortSchedulingResult, if_pos rfl] at hres
        simp only [Prod.mk.injEq] at hres
        obtain ⟨-, hns⟩ := hres
        subst hns
        have hperm := sortRequiredResources_perm hsort
        have hidxlen := sortRequiredResources_length hsort
        have hinnerlen : inner.length = reqs.length := by
          rw [dispatchSorted_success_length hdisp, List.length_map, hidxlen]
        have hlen2 : idx.length = inner.length := by rw [hidxlen, hinnerlen]
        have hnd : idx.Nodup := hperm.nodup_iff.mpr (List.nodup_range _)
        have hbnd : ∀ i ∈ idx, i < inner.length := by
          intro i hi
          rw [hinnerlen]
          exact List.mem_range.mp (hperm.mem_iff.mp hi)
        refine ⟨?_, fun _ => ⟨idx, inner, view2, rfl, hdisp, rfl, ?_⟩⟩
        · rw [scatterNodes_length, hinnerlen]
        · intro j hj
          exact scatterNodes_getD idx inner hnd hlen2 hbnd j
            (by rw [hidxlen]; exact hj)
      · rw [SortSchedulingResult, if_neg (by simpa using hst')] at hres
        simp only [Prod.mk.injEq] at hres
        exact absurd hres.1 hst'

/-- Witness for C3 at a concrete single-bundle `PACK` run. -/
theorem schedule_success_original_order_witness :
    ([some 1] : List (Option ℕ)).length =
        [(⟨[2, 0, 0, 0], []⟩ : ResourceRequest)].length ∧
      (SchedulingType.PACK ≠ SchedulingType.STRICT_PACK →
        ∃ idx inner v3,
          SortRequiredResources [⟨[2, 0, 0, 0], []⟩] = some idx ∧
          DispatchSorted SchedulingType.PACK
            (idx.map (fun i =>
              ([(⟨[2, 0, 0, 0], []⟩ : ResourceRequest)]).getD i default))
            (FilterCandidateNodes
              [(1, ⟨[⟨4, 4⟩, ⟨4, 4⟩, ⟨4, 4⟩, ⟨4, 4⟩], []⟩)] none)
            [(1, ⟨[⟨4, 4⟩, ⟨4, 4⟩, ⟨4, 4⟩, ⟨4, 4⟩], []⟩)] =
            some ((SchedulingResultStatus.SUCCESS, inner), v3) ∧
          ([some 1] : List (Option ℕ)) = scatterNodes idx inner ∧
          ∀ j, j < [(⟨[2, 0, 0, 0], []⟩ : ResourceRequest)].length →
            ([some 1] : List (Option ℕ)).getD (idx.getD j 0) none =
              inner.getD j none) :=
  schedule_success_original_order [⟨[2, 0, 0, 0], []⟩] SchedulingType.PACK
    [(1, ⟨[⟨4, 4⟩, ⟨4, 4⟩, ⟨4, 4⟩, ⟨4, 4⟩], []⟩)] none [some 1]
    [(1, ⟨[⟨4, 4⟩, ⟨4, 4⟩, ⟨4, 4⟩, ⟨4, 4⟩], []⟩)]
    (by norm_num [Schedule, FilterCandidateNodes, SortRequiredResources,
      compareRR, customCompareLoop, predefCompareLoop, extraResourcesSet,
      List.insertionSort, List.orderedInsert, PackSchedule, PackLoop,
      PackTryMore, buildQueue, AcquireResources, ReleaseResources,
      ReleaseTemporarilyDeductedResources, viewUpdate, nodeAdjust,
      adjustPredef, addCustomAvail, IsAvailable, predefIsAvailable,
      GetBestNode, GetBestNodeLoop, Score, ScorePredefLoop, ScoreCustomLoop,
      Calculate, DispatchSorted, SortSchedulingResult, scatterNodes,
      List.lookup, List.find?, CPU, MEM, GPU, OBJECT_STORE_MEM,
      PredefinedResources_MAX]
      <;> exact fun h => SchedulingType.noConfusion h)

/-! ### Strict spread (claim C7) -/

theorem strictSpreadLoop_nodup (view : ClusterView) :
    ∀ (reqs : List ResourceRequest) (cands : List ℕ)
      (acc ns : List (Option ℕ)),
      cands.Nodup → acc.Nodup →
      (∀ x ∈ acc, ∀ n, x = some n → n ∉ cands) →
      StrictSpreadLoop view reqs cands acc = some ns → ns.Nodup := by
  intro reqs
  induction reqs with
  | nil =>
    intro cands acc ns _ haccnd _ h
    rw [StrictSpreadLoop] at h
    rw [← Option.some_injective _ h]
    exact haccnd
  | cons r rest ih =>
    intro cands acc ns hcands haccnd hdisj h
    cases hbest : GetBestNode r cands view with
    | none =>
      simp only [StrictSpreadLoop, hbest] at h
      exact Option.noConfusion h
    | some ob =>
      cases ob with
      | none =>
        simp only [StrictSpreadLoop, hbest] at h
        rw [← Option.some_injective _ h]
        exact haccnd
      | some n =>
        have hmem : n ∈ cands := getBestNode_mem hbest
        simp only [StrictSpreadLoop, hbest] at h
        refine ih (cands.erase n) (acc ++ [some n]) ns
          (hcands.erase n) ?_ ?_ h
        · rw [List.nodup_append]
          refine ⟨haccnd, List.nodup_singleton _, ?_⟩
          intro x hx hx2
          rw [List.mem_singleton] at hx2
          subst hx2
          exact hdisj _ hx n rfl hmem
        · intro x hx m hxm
          rcases List.mem_append.mp hx with hxa | hxs
          · intro hmem2
            exact hdisj x hxa m hxm (List.mem_of_mem_erase hmem2)
          · rw [List.mem_singleton] at hxs
            subst hxs
            rw [Option.some_injective _ hxm]
            intro hmem2
            exact (hcands.mem_erase_iff.mp hmem2).1 rfl

/-- C7: for a `STRICT_SPREAD` `Schedule` call over a view with distinct node
ids, every `SUCCESS` result assigns pairwise distinct nodes, and whenever
the bundle count exceeds the candidate count the call returns `INFEASIBLE`
with an empty node list. -/
theorem strictSpread_distinct_or_infeasible (reqs : List ResourceRequest)
    (view : ClusterView) (f : Option (ℕ → Bool))
    (st : SchedulingResultStatus) (ns : List (Option ℕ)) (v2 : ClusterView)
    (hkeys : (view.map Prod.fst).Nodup)
    (hrun : Schedule reqs SchedulingType.STRICT_SPREAD view f =
      some ((st, ns), v2)) :
    (st = SchedulingResultStatus.SUCCESS → ns.Nodup) ∧
      ((FilterCandidateNodes view f).length < reqs.length →
        st = SchedulingResultStatus.INFEASIBLE ∧ ns = []) := by
  unfold Schedule at hrun
  by_cases hemp : (FilterCandidateNodes view f).isEmpty = true
  · rw [if_pos hemp] at hrun
    simp only [Option.some.injEq, Prod.mk.injEq] at hrun
    obtain ⟨⟨hst, hns⟩, -⟩ := hrun
    subst hst hns
    exact ⟨fun hsu => absurd hsu (by decide), fun _ => ⟨rfl, rfl⟩⟩
  rw [if_neg hemp, if_neg (by decide :
    ¬ (SchedulingType.STRICT_SPREAD = SchedulingType.STRICT_PACK))] at hrun
  cases hsort : SortRequiredResources reqs with
  | none =>
    simp only [hsort] at hrun
    exact Option.noConfusion hrun
  | some idx =>
    simp only [hsort, DispatchSorted] at hrun
    cases hdisp : StrictSpreadSchedule
        (idx.map (fun i => reqs.getD i default))
        (FilterCandidateNodes view f) view with
    | none =>
      simp only [hdisp] at hrun
      exact Option.noConfusion hrun
    | some p =>
      obtain ⟨r, view2⟩ := p
      obtain ⟨st', inner⟩ := r
      simp only [hdisp] at hrun
      simp only [Option.some.injEq, Prod.mk.injEq] at hrun
      obtain ⟨hres, hv2⟩ := hrun
      have hinv := strictSpreadSchedule_inv hdisp
      have hsortlen : (idx.map (fun i => reqs.getD i default)).length =
          reqs.length := by
        rw [List.length_map, sortRequiredResources_length hsort]
      constructor
      · intro hsu
        subst hsu
        by_cases hst' : st' = SchedulingResultStatus.SUCCESS
        · subst hst'
          rw [SortSchedulingResult, if_pos rfl] at hres
          simp only [Prod.mk.injEq] at hres
          obtain ⟨-, hns⟩ := hres
          subst hns
          have hcands_nd : (FilterCandidateNodes view f).Nodup :=
            hkeys.filter _
          have hinner_nd : inner.Nodup :=
            strictSpreadLoop_nodup view
              (idx.map (fun i => reqs.getD i default))
              (FilterCandidateNodes view f) [] inner hcands_nd
              List.nodup_nil (by simp) ((hinv.2.1 rfl).2)
          have hinnerlen : inner.length = reqs.length := by
            rw [(hinv.2.1 rfl).1, hsortlen]
          apply scatterNodes_nodup idx inner ?_ hinner_nd
          rw [hinnerlen]
          exact sortRequiredResources_perm hsort
        · rw [SortSchedulingResult, if_neg (by simpa using hst')] at hres
          simp only [Prod.mk.injEq] at hres
          exact absurd hres.1 hst'
      · intro hlt
        have hinf := hinv.2.2 (by rw [hsortlen]; exact hlt)
        obtain ⟨hst', hinner⟩ := hinf
        subst hst' hinner
        rw [SortSchedulingResult, if_neg (by decide :
          ¬ (SchedulingResultStatus.INFEASIBLE =
            SchedulingResultStatus.SUCCESS))] at hres
        simp only [Prod.mk.injEq] at hres
        exact ⟨hres.1.symm, hres.2.symm⟩

/-- Witness for C7 at a concrete run: two bundles, one candidate node. -/
theorem strictSpread_distinct_or_infeasible_witness :
    (SchedulingResultStatus.INFEASIBLE = SchedulingResultStatus.SUCCESS →
      ([] : List (Option ℕ)).Nodup) ∧
      ((FilterCandidateNodes [(1, ⟨[⟨4, 4⟩, ⟨4, 4⟩, ⟨4, 4⟩, ⟨4, 4⟩], []⟩)]
          none).length <
          [(⟨[0, 0, 1, 0], []⟩ : ResourceRequest), ⟨[0, 0, 1, 0], []⟩].length →
        SchedulingResultStatus.INFEASIBLE =
            SchedulingResultStatus.INFEASIBLE ∧
          ([] : List (Option ℕ)) = []) :=
  strictSpread_distinct_or_infeasible
    [⟨[0, 0, 1, 0], []⟩, ⟨[0, 0, 1, 0], []⟩]
    [(1, ⟨[⟨4, 4⟩, ⟨4, 4⟩, ⟨4, 4⟩, ⟨4, 4⟩], []⟩)] none
    SchedulingResultStatus.INFEASIBLE []
    [(1, ⟨[⟨4, 4⟩, ⟨4, 4⟩, ⟨4, 4⟩, ⟨4, 4⟩], []⟩)]
    (by decide)
    (by
      norm_num [Schedule, FilterCandidateNodes, SortRequiredResources,
        compareRR, customCompareLoop, predefCompareLoop, extraResourcesSet,
        List.insertionSort, List.orderedInsert, DispatchSorted,
        StrictSpreadSchedule, SortSchedulingResult, CPU, MEM, GPU,
        OBJECT_STORE_MEM, PredefinedResources_MAX]
      rw [if_neg (by decide : ¬ (SchedulingType.STRICT_SPREAD =
        SchedulingType.STRICT_PACK))]
      rw [if_neg (by decide : ¬ (SchedulingResultStatus.INFEASIBLE =
        SchedulingResultStatus.SUCCESS))])

/-! ### Provisional deduction bookkeeping (claim C1) -/

theorem adjustPredef_nil_right (c : ℚ) (qs : List ℚ) :
    adjustPredef c qs [] = [] := by
  cases qs <;> rfl

theorem adjustPredef_nil_left (c : ℚ) (es : List ResourceCapacity) :
    adjustPredef c [] es = es := by
  cases es <;> rfl

theorem adjustPredef_comm (c c' : ℚ) :
    ∀ (es : List ResourceCapacity) (qs qs' : List ℚ),
      adjustPredef c qs (adjustPredef c' qs' es) =
        adjustPredef c' qs' (adjustPredef c qs es) := by
  intro es
  induction es with
  | nil =>
    intro qs qs'
    simp [adjustPredef_nil_right]
  | cons e es ih =>
    intro qs qs'
    cases qs with
    | nil => rw [adjustPredef_nil_left, adjustPredef_nil_left]
    | cons q qs =>
      cases qs' with
      | nil => rw [adjustPredef_nil_left, adjustPredef_nil_left]
      | cons q' qs2 =>
        simp only [adjustPredef, List.cons.injEq]
        refine ⟨?_, ih qs qs2⟩
        simp only [ResourceCapacity.mk.injEq]
        exact ⟨trivial, by ring⟩

theorem adjustPredef_merge (c c' : ℚ) :
    ∀ (es : List ResourceCapacity) (qs : List ℚ),
      adjustPredef c qs (adjustPredef c' qs es) =
        adjustPredef (c + c') qs es := by
  intro es
  induction es with
  | nil =>
    intro qs
    simp [adjustPredef_nil_right]
  | cons e es ih =>
    intro qs
    cases qs with
    | nil => rw [adjustPredef_nil_left, adjustPredef_nil_left,
        adjustPredef_nil_left]
    | cons q qs =>
      simp only [adjustPredef, List.cons.injEq]
      refine ⟨?_, ih qs⟩
      simp only [ResourceCapacity.mk.injEq]
      exact ⟨trivial, by ring⟩

theorem adjustPredef_zero :
    ∀ (es : List ResourceCapacity) (qs : List ℚ),
      adjustPredef 0 qs es = es := by
  intro es
  induction es with
  | nil => intro qs; rw [adjustPredef_nil_right]
  | cons e es ih =>
    intro qs
    cases qs with
    | nil => rw [adjustPredef_nil_left]
    | cons q qs =>
      simp only [adjustPredef, List.cons.injEq]
      refine ⟨?_, ih qs⟩
      have h0 : e.available + 0 * q = e.available := by ring
      rw [h0]

theorem addCustomAvail_comm (d d' : ℚ) (rid rid' : ℕ) :
    ∀ l, addCustomAvail d rid (addCustomAvail d' rid' l) =
      addCustomAvail d' rid' (addCustomAvail d rid l) := by
  intro l
  induction l with
  | nil => rfl
  | cons p rest ih =>
    obtain ⟨k, cap⟩ := p
    by_cases h1 : k = rid'
    · by_cases h2 : k = rid
      · subst h1
        subst h2
        simp [addCustomAvail, add_right_comm]
      · subst h1
        simp [addCustomAvail, h2]
    · by_cases h2 : k = rid
      · subst h2
        simp [addCustomAvail, h1]
      · simp [addCustomAvail, h1, h2, ih]

theorem addCustomAvail_merge (d d' : ℚ) (rid : ℕ) :
    ∀ l, addCustomAvail d rid (addCustomAvail d' rid l) =
      addCustomAvail (d + d') rid l := by
  intro l
  induction l with
  | nil => rfl
  | cons p rest ih =>
    obtain ⟨k, cap⟩ := p
    by_cases h : k = rid
    · subst h
      simp only [addCustomAvail, ite_true, List.cons.injEq, Prod.mk.injEq,
        ResourceCapacity.mk.injEq, true_and, and_true]
      ring
    · simp [addCustomAvail, h, ih]

theorem addCustomAvail_zero (rid : ℕ) :
    ∀ l, addCustomAvail 0 rid l = l := by
  intro l
  induction l with
  | nil => rfl
  | cons p rest ih =>
    obtain ⟨k, cap⟩ := p
    by_cases h : k = rid
    · subst h
      simp [addCustomAvail]
    · simp [addCustomAvail, h, ih]

theorem customFold_addCustomAvail_comm (c d : ℚ) (rid : ℕ) :
    ∀ (crs : List (ℕ × ℚ)) (l : List (ℕ × ResourceCapacity)),
      crs.foldl (fun l p => addCustomAvail (c * p.2) p.1 l)
        (addCustomAvail d rid l) =
      addCustomAvail d rid
        (crs.foldl (fun l p => addCustomAvail (c * p.2) p.1 l) l) := by
  intro crs
  induction crs with
  | nil => intro l; rfl
  | cons p rest ih =>
    intro l
    simp only [List.foldl_cons]
    rw [addCustomAvail_comm (c * p.2) d p.1 rid l]
    exact ih (addCustomAvail (c * p.2) p.1 l)

theorem customFold_comm (c c' : ℚ) :
    ∀ (crs crs' : List (ℕ × ℚ)) (l : List (ℕ × ResourceCapacity)),
      crs.foldl (fun l p => addCustomAvail (c * p.2) p.1 l)
        (crs'.foldl (fun l p => addCustomAvail (c' * p.2) p.1 l) l) =
      crs'.foldl (fun l p => addCustomAvail (c' * p.2) p.1 l)
        (crs.foldl (fun l p => addCustomAvail (c * p.2) p.1 l) l) := by
  intro crs
  induction crs with
  | nil => intro crs' l; rfl
  | cons p rest ih =>
    intro crs' l
    simp only [List.foldl_cons]
    rw [← customFold_addCustomAvail_comm c' (c * p.2) p.1 crs' l]
    exact ih crs' (addCustomAvail (c * p.2) p.1 l)

theorem customFold_merge (c c' : ℚ) :
    ∀ (crs : List (ℕ × ℚ)) (l : List (ℕ × ResourceCapacity)),
      crs.foldl (fun l p => addCustomAvail (c * p.2) p.1 l)
        (crs.foldl (fun l p => addCustomAvail (c' * p.2) p.1 l) l) =
      crs.foldl (fun l p => addCustomAvail ((c + c') * p.2) p.1 l) l := by
  intro crs
  induction crs with
  | nil => intro l; rfl
  | cons p rest ih =>
    intro l
    simp only [List.foldl_cons]
    rw [← customFold_addCustomAvail_comm c' (c * p.2) p.1 rest
      (addCustomAvail (c' * p.2) p.1 l), addCustomAvail_merge,
      show c * p.2 + c' * p.2 = (c + c') * p.2 from by ring]
    exact ih (addCustomAvail ((c + c') * p.2) p.1 l)

theorem customFold_zero :
    ∀ (crs : List (ℕ × ℚ)) (l : List (ℕ × ResourceCapacity)),
      crs.foldl (fun l p => addCustomAvail ((0 : ℚ) * p.2) p.1 l) l = l := by
  intro crs
  induction crs with
  | nil => intro l; rfl
  | cons p rest ih =>
    intro l
    rw [List.foldl_cons, zero_mul, addCustomAvail_zero]
    exact ih l

theorem nodeAdjust_comm (c c' : ℚ) (r r' : ResourceRequest)
    (node : NodeResources) :
    nodeAdjust c r (nodeAdjust c' r' node) =
      nodeAdjust c' r' (nodeAdjust c r node) := by
  simp only [nodeAdjust]
  congr 1
  · exact adjustPredef_comm c c' node.predefined_resources
      r.predefined_resources r'.predefined_resources
  · exact customFold_comm c c' r.custom_resources r'.custom_resources
      node.custom_resources

theorem nodeAdjust_cancel (r : ResourceRequest) (node : NodeResources) :
    nodeAdjust 1 r (nodeAdjust (-1) r node) = node := by
  simp only [nodeAdjust]
  rw [adjustPredef_merge, show (1 : ℚ) + -1 = 0 from by norm_num,
    adjustPredef_zero]
  rw [customFold_merge, show (1 : ℚ) + -1 = 0 from by norm_num,
    customFold_zero]

theorem viewUpdate_keys (n : ℕ) (g : NodeResources → NodeResources) :
    ∀ v : ClusterView, (viewUpdate n g v).map Prod.fst = v.map Prod.fst := by
  intro v
  induction v with
  | nil => rfl
  | cons p rest ih =>
    obtain ⟨k, res⟩ := p
    by_cases h : k = n <;> simp [viewUpdate, h, ih]

theorem viewUpdate_lookup_isSome (n m : ℕ) (g : NodeResources → NodeResources)
    (v : ClusterView) :
    ((viewUpdate n g v).lookup m).isSome ↔ (v.lookup m).isSome := by
  rw [lookup_isSome_iff_mem_keys, lookup_isSome_iff_mem_keys,
    viewUpdate_keys]

theorem viewUpdate_comp (n : ℕ) (g g' : NodeResources → NodeResources) :
    ∀ v : ClusterView,
      viewUpdate n g (viewUpdate n g' v) =
        viewUpdate n (fun x => g (g' x)) v := by
  intro v
  induction v with
  | nil => rfl
  | cons p rest ih =>
    obtain ⟨k, res⟩ := p
    by_cases h : k = n <;> simp [viewUpdate, h, ih]

theorem viewUpdate_comm_ne {n m : ℕ} (hnm : n ≠ m)
    (g g' : NodeResources → NodeResources) :
    ∀ v : ClusterView,
      viewUpdate n g (viewUpdate m g' v) =
        viewUpdate m g' (viewUpdate n g v) := by
  intro v
  induction v with
  | nil => rfl
  | cons p rest ih =>
    obtain ⟨k, res⟩ := p
    by_cases h1 : k = m
    · by_cases h2 : k = n
      · exact absurd (h2.symm.trans h1) hnm
      · simp [viewUpdate, h1, h2, hnm, Ne.symm hnm]
    · by_cases h2 : k = n
      · simp [viewUpdate, h1, h2, hnm, Ne.symm hnm]
      · simp [viewUpdate, h1, h2, ih]

theorem viewUpdate_id (n : ℕ) :
    ∀ v : ClusterView, viewUpdate n (fun x => x) v = v := by
  intro v
  induction v with
  | nil => rfl
  | cons p rest ih =>
    obtain ⟨k, res⟩ := p
    by_cases h : k = n <;> simp [viewUpdate, h, ih]

theorem viewUpdateAdjust_comm (n m : ℕ) (c c' : ℚ)
    (r r' : ResourceRequest) (v : ClusterView) :
    viewUpdate n (nodeAdjust c r) (viewUpdate m (nodeAdjust c' r') v) =
      viewUpdate m (nodeAdjust c' r') (viewUpdate n (nodeAdjust c r) v) := by
  by_cases hnm : n = m
  · subst hnm
    rw [viewUpdate_comp, viewUpdate_comp]
    congr 1
    funext x
    exact nodeAdjust_comm c c' r r' x
  · exact viewUpdate_comm_ne hnm _ _ v

theorem applyRel_cons (p : ℕ × ResourceRequest)
    (ps : List (ℕ × ResourceRequest)) (v : ClusterView) :
    applyRel (p :: ps) v =
      applyRel ps (viewUpdate p.1 (nodeAdjust 1 p.2) v) := rfl

theorem applyRel_update_comm (n : ℕ) (c : ℚ) (r : ResourceRequest) :
    ∀ (ps : List (ℕ × ResourceRequest)) (v : ClusterView),
      applyRel ps (viewUpdate n (nodeAdjust c r) v) =
        viewUpdate n (nodeAdjust c r) (applyRel ps v) := by
  intro ps
  induction ps with
  | nil => intro v; rfl
  | cons p rest ih =>
    intro v
    rw [applyRel_cons, applyRel_cons,
      viewUpdateAdjust_comm p.1 n 1 c p.2 r v, ih]

theorem applyRel_keys :
    ∀ (ps : List (ℕ × ResourceRequest)) (v : ClusterView),
      (applyRel ps v).map Prod.fst = v.map Prod.fst := by
  intro ps
  induction ps with
  | nil => intro v; rfl
  | cons p rest ih =>
    intro v
    rw [applyRel_cons, ih, viewUpdate_keys]

theorem acquireResources_eq {view : ClusterView} {n : ℕ}
    {r : ResourceRequest} {v' : ClusterView}
    (h : AcquireResources view n r = some v') :
    v' = viewUpdate n (nodeAdjust (-1) r) view ∧
      (view.lookup n).isSome := by
  unfold AcquireResources at h
  cases hlk : view.lookup n with
  | none =>
    simp only [hlk] at h
    exact Option.noConfusion h
  | some node =>
    simp only [hlk] at h
    split at h
    · exact ⟨(Option.some_injective _ h).symm, rfl⟩
    · exact Option.noConfusion h

theorem releaseResources_eq {view : ClusterView} {n : ℕ}
    (r : ResourceRequest) (h : (view.lookup n).isSome) :
    ReleaseResources view n r =
      some (viewUpdate n (nodeAdjust 1 r) view) := by
  unfold ReleaseResources
  obtain ⟨node, hn⟩ := Option.isSome_iff_exists.mp h
  rw [hn]

theorem rtdr_eq_applyRel :
    ∀ (nodes : List (Option ℕ)) (reqs : List ResourceRequest)
      (v : ClusterView),
      nodes.length ≤ reqs.length →
      (∀ p ∈ assignedPairs nodes reqs, (v.lookup p.1).isSome) →
      ReleaseTemporarilyDeductedResources reqs nodes v =
        some (applyRel (assignedPairs nodes reqs) v) := by
  intro nodes
  induction nodes with
  | nil =>
    intro reqs v _ _
    cases reqs <;> rfl
  | cons o nodes ih =>
    intro reqs v hlen hpres
    cases reqs with
    | nil => simp at hlen
    | cons r rs =>
      cases o with
      | none =>
        have hpairs : assignedPairs (none :: nodes) (r :: rs) =
            assignedPairs nodes rs := rfl
        rw [hpairs] at hpres
        show ReleaseTemporarilyDeductedResources rs nodes v = _
        rw [hpairs]
        exact ih rs v (by simpa using Nat.le_of_succ_le_succ hlen) hpres
      | some n =>
        have hpairs : assignedPairs (some n :: nodes) (r :: rs) =
            (n, r) :: assignedPairs nodes rs := rfl
        rw [hpairs] at hpres
        have hpres_head : (v.lookup n).isSome :=
          hpres (n, r) (List.mem_cons_self _ _)
        simp only [ReleaseTemporarilyDeductedResources,
          releaseResources_eq r hpres_head]
        rw [hpairs, applyRel_cons]
        apply ih rs (viewUpdate n (nodeAdjust 1 r) v)
          (by simpa using Nat.le_of_succ_le_succ hlen)
        intro p hp
        rw [viewUpdate_lookup_isSome]
        exact hpres p (List.mem_cons_of_mem _ hp)

theorem spreadLoop_inv :
    ∀ (reqs : List ResourceRequest) (cands sel : List ℕ)
      (view : ClusterView) (acc ns : List (Option ℕ)) (view' : ClusterView),
      SpreadLoop reqs cands sel view acc = some (ns, view') →
      ∃ new, ns = acc ++ new ∧ new.length ≤ reqs.length ∧
        applyRel (assignedPairs new reqs) view' = view ∧
        view'.map Prod.fst = view.map Prod.fst ∧
        (∀ p ∈ assignedPairs new reqs, (view'.lookup p.1).isSome) := by
  intro reqs
  induction reqs with
  | nil =>
    intro cands sel view acc ns view' h
    rw [SpreadLoop] at h
    have h3 := Prod.ext_iff.mp (Option.some_injective _ h)
    refine ⟨[], by rw [List.append_nil]; exact h3.1.symm, by simp, ?_, ?_, ?_⟩
    · exact h3.2.symm
    · exact congrArg (List.map Prod.fst) h3.2.symm
    · intro p hp
      exact absurd hp (by simp [assignedPairs])
  | cons r rest ih =>
    intro cands sel view acc ns view' h
    cases hbest : GetBestNode r cands view with
    | none =>
      simp only [SpreadLoop, hbest] at h
      exact Option.noConfusion h
    | some ob =>
      cases ob with
      | some n =>
        cases hacq : AcquireResources view n r with
        | none =>
          simp only [SpreadLoop, hbest, hacq] at h
          exact Option.noConfusion h
        | some view2 =>
          simp only [SpreadLoop, hbest, hacq] at h
          obtain ⟨hv2eq, hpres0⟩ := acquireResources_eq hacq
          obtain ⟨new1, hns, hlen1, happ, hkeys, hpres⟩ :=
            ih (cands.erase n) (sel ++ [n]) view2 (acc ++ [some n]) ns view' h
          have hpairs : assignedPairs (some n :: new1) (r :: rest) =
              (n, r) :: assignedPairs new1 rest := rfl
          refine ⟨some n :: new1, ?_, by simpa using Nat.succ_le_succ hlen1,
            ?_, ?_, ?_⟩
          · rw [hns, List.append_assoc]
            rfl
          · rw [hpairs, applyRel_cons]
            show applyRel (assignedPairs new1 rest)
              (viewUpdate n (nodeAdjust 1 r) view') = view
            rw [applyRel_update_comm, happ, hv2eq, viewUpdate_comp]
            have hid : (fun x => nodeAdjust 1 r (nodeAdjust (-1) r x)) =
                fun x => x := by
              funext x
              exact nodeAdjust_cancel r x
            rw [hid, viewUpdate_id]
          · rw [hkeys, hv2eq, viewUpdate_keys]
          · intro p hp
            rw [hpairs] at hp
            rcases List.mem_cons.mp hp with heq | hmem
            · subst heq
              rw [lookup_isSome_iff_mem_keys, hkeys, hv2eq, viewUpdate_keys]
              rw [lookup_isSome_iff_mem_keys] at hpres0
              exact hpres0
            · exact hpres p hmem
      | none =>
        cases hbest2 : GetBestNode r sel view with
        | none =>
          simp only [SpreadLoop, hbest, hbest2] at h
          exact Option.noConfusion h
        | some ob2 =>
          cases ob2 with
          | some n =>
            cases hacq : AcquireResources view n r with
            | none =>
              simp only [SpreadLoop, hbest, hbest2, hacq] at h
              exact Option.noConfusion h
            | some view2 =>
              simp only [SpreadLoop, hbest, hbest2, hacq] at h
              obtain ⟨hv2eq, hpres0⟩ := acquireResources_eq hacq
              obtain ⟨new1, hns, hlen1, happ, hkeys, hpres⟩ :=
                ih cands sel view2 (acc ++ [some n]) ns view' h
              have hpairs : assignedPairs (some n :: new1) (r :: rest) =
                  (n, r) :: assignedPairs new1 rest := rfl
              refine ⟨some n :: new1, ?_,
                by simpa using Nat.succ_le_succ hlen1, ?_, ?_, ?_⟩
              · rw [hns, List.append_assoc]
                rfl
              · rw [hpairs, applyRel_cons]
                show applyRel (assignedPairs new1 rest)
                  (viewUpdate n (nodeAdjust 1 r) view') = view
                rw [applyRel_update_comm, happ, hv2eq, viewUpdate_comp]
                have hid : (fun x =>
                    nodeAdjust 1 r (nodeAdjust (-1) r x)) = fun x => x := by
                  funext x
                  exact nodeAdjust_cancel r x
                rw [hid, viewUpdate_id]
              · rw [hkeys, hv2eq, viewUpdate_keys]
              · intro p hp
                rw [hpairs] at hp
                rcases List.mem_cons.mp hp with heq | hmem
                · subst heq
                  rw [lookup_isSome_iff_mem_keys, hkeys, hv2eq,
                    viewUpdate_keys]
                  rw [lookup_isSome_iff_mem_keys] at hpres0
                  exact hpres0
                · exact hpres p hmem
          | none =>
            simp only [SpreadLoop, hbest, hbest2] at h
            have h3 := Prod.ext_iff.mp (Option.some_injective _ h)
            refine ⟨[], by rw [List.append_nil]; exact h3.1.symm, by simp,
              ?_, ?_, ?_⟩
            · exact h3.2.symm
            · exact congrArg (List.map Prod.fst) h3.2.symm
            · intro p hp
              exact absurd hp (by simp [assignedPairs])

theorem spreadSchedule_view {reqs : List ResourceRequest} {cands : List ℕ}
    {view : ClusterView} {r : SchedulingResult} {v' : ClusterView}
    (h : SpreadSchedule reqs cands view = some (r, v')) : v' = view := by
  unfold SpreadSchedule at h
  cases hloop : SpreadLoop reqs cands [] view [] with
  | none =>
    simp only [hloop] at h
    exact Option.noConfusion h
  | some p =>
    obtain ⟨ns, view2⟩ := p
    simp only [hloop] at h
    obtain ⟨new, hns, hlen, happ, hkeys, hpres⟩ :=
      spreadLoop_inv reqs cands [] view [] ns view2 hloop
    rw [List.nil_append] at hns
    subst hns
    simp only [rtdr_eq_applyRel ns reqs view2 hlen hpres, happ] at h
    split at h
    · exact (Prod.ext_iff.mp (Option.some_injective _ h)).2.symm
    · exact (Prod.ext_iff.mp (Option.some_injective _ h)).2.symm

theorem assignedPairs_nil_left (reqs : List ResourceRequest) :
    assignedPairs [] reqs = [] := rfl

theorem assignedPairs_replicate_none :
    ∀ (reqs : List ResourceRequest) (n : ℕ),
      assignedPairs (List.replicate n none) reqs = [] := by
  intro reqs
  induction reqs with
  | nil => intro n; cases n <;> rfl
  | cons r rs ih =>
    intro n
    cases n with
    | zero => rfl
    | succ n =>
      have hstep : assignedPairs (List.replicate (n + 1) none) (r :: rs) =
          assignedPairs (List.replicate n none) rs := rfl
      rw [hstep, ih n]

theorem assignedPairs_set :
    ∀ (res : List (Option ℕ)) (reqs : List ResourceRequest) (i n : ℕ),
      i < res.length → res.length = reqs.length →
      res.getD i none = none →
      ∃ l₁ l₂, assignedPairs res reqs = l₁ ++ l₂ ∧
        assignedPairs (res.set i (some n)) reqs =
          l₁ ++ (n, reqs.getD i default) :: l₂ := by
  intro res
  induction res with
  | nil =>
    intro reqs i n hi
    exact absurd hi (by simp)
  | cons o os ihres =>
    intro reqs i n hi hlen hnone
    cases reqs with
    | nil => simp at hlen
    | cons r rs =>
      cases i with
      | zero =>
        have ho : o = none := hnone
        subst ho
        exact ⟨[], assignedPairs os rs, rfl, rfl⟩
      | succ i =>
        obtain ⟨l₁, l₂, h1, h2⟩ := ihres rs i n (by simpa using hi)
          (by simpa using hlen) (by simpa using hnone)
        cases o with
        | none =>
          refine ⟨l₁, l₂, ?_, ?_⟩
          · exact h1
          · exact h2
        | some m =>
          refine ⟨(m, r) :: l₁, l₂, ?_, ?_⟩
          · show (m, r) :: assignedPairs os rs = _
            rw [h1]
            rfl
          · show (m, r) :: assignedPairs (os.set i (some n)) rs = _
            rw [h2]
            rfl

theorem applyRel_append_cons (l₁ l₂ : List (ℕ × ResourceRequest))
    (p : ℕ × ResourceRequest) (v : ClusterView) :
    applyRel (l₁ ++ p :: l₂) v =
      applyRel (l₁ ++ l₂) (viewUpdate p.1 (nodeAdjust 1 p.2) v) := by
  unfold applyRel
  rw [List.foldl_append, List.foldl_append, List.foldl_cons]
  congr 1
  exact (applyRel_update_comm p.1 1 p.2 l₁ v).symm

theorem packInv_acquire_set {reqs : List ResourceRequest}
    {v0 view view2 : ClusterView} {res : List (Option ℕ)} {i n : ℕ}
    {r : ResourceRequest}
    (happ : applyRel (assignedPairs res reqs) view = v0)
    (hkeys : view.map Prod.fst = v0.map Prod.fst)
    (hpres : ∀ p ∈ assignedPairs res reqs, (view.lookup p.1).isSome)
    (hlen : res.length = reqs.length)
    (hi : i < reqs.length)
    (hr : reqs.getD i default = r)
    (hnone : res.getD i none = none)
    (hacq : AcquireResources view n r = some view2) :
    applyRel (assignedPairs (res.set i (some n)) reqs) view2 = v0 ∧
      view2.map Prod.fst = v0.map Prod.fst ∧
      (∀ p ∈ assignedPairs (res.set i (some n)) reqs,
        (view2.lookup p.1).isSome) := by
  obtain ⟨hv2, hnpres⟩ := acquireResources_eq hacq
  obtain ⟨l₁, l₂, h1, h2⟩ :=
    assignedPairs_set res reqs i n (hlen ▸ hi) hlen hnone
  rw [hr] at h2
  refine ⟨?_, ?_, ?_⟩
  · rw [h2, applyRel_append_cons, hv2, viewUpdate_comp]
    have hid : (fun x => nodeAdjust 1 r (nodeAdjust (-1) r x)) =
        fun x => x := by
      funext x
      exact nodeAdjust_cancel r x
    rw [hid, viewUpdate_id, ← h1]
    exact happ
  · rw [hv2, viewUpdate_keys]
    exact hkeys
  · intro p hp
    rw [hv2, viewUpdate_lookup_isSome]
    rw [h2] at hp
    rcases List.mem_append.mp hp with hp1 | hp2
    · exact hpres p (by rw [h1]; exact List.mem_append.mpr (Or.inl hp1))
    · rcases List.mem_cons.mp hp2 with heq | hp3
      · subst heq
        exact hnpres
      · exact hpres p (by rw [h1]; exact List.mem_append.mpr (Or.inr hp3))

theorem packTryMore_inv (reqs : List ResourceRequest) (v0 : ClusterView)
    (n : ℕ) :
    ∀ (q : List (ℕ × ResourceRequest)) (view : ClusterView)
      (res : List (Option ℕ)) (q' : List (ℕ × ResourceRequest))
      (view' : ClusterView) (res' : List (Option ℕ)),
      PackTryMore n q view res = (q', view', res') →
      applyRel (assignedPairs res reqs) view = v0 →
      view.map Prod.fst = v0.map Prod.fst →
      (∀ p ∈ assignedPairs res reqs, (view.lookup p.1).isSome) →
      res.length = reqs.length →
      (∀ p ∈ q, p.1 < reqs.length ∧ reqs.getD p.1 default = p.2 ∧
        res.getD p.1 none = none) →
      (q.map Prod.fst).Nodup →
      applyRel (assignedPairs res' reqs) view' = v0 ∧
        view'.map Prod.fst = v0.map Prod.fst ∧
        (∀ p ∈ assignedPairs res' reqs, (view'.lookup p.1).isSome) ∧
        res'.length = reqs.length ∧
        (∀ p ∈ q', p.1 < reqs.length ∧ reqs.getD p.1 default = p.2 ∧
          res'.getD p.1 none = none) ∧
        (q'.map Prod.fst).Sublist (q.map Prod.fst) ∧
        (∀ j, j ∉ q.map Prod.fst → res'.getD j none = res.getD j none) := by
  intro q
  induction q with
  | nil =>
    intro view res q' view' res' h h1 h2 h3 h4 h5 h6
    simp only [PackTryMore, Prod.mk.injEq] at h
    obtain ⟨hq, hv, hr⟩ := h
    subst hq; subst hv; subst hr
    exact ⟨h1, h2, h3, h4, by simp, by simp, fun j _ => rfl⟩
  | cons hd tl ih =>
    intro view res q' view' res' h h1 h2 h3 h4 h5 h6
    obtain ⟨i, req⟩ := hd
    obtain ⟨hi, hr, hnone⟩ := h5 (i, req) (List.mem_cons_self _ _)
    rw [List.map_cons] at h6
    have hnotin : i ∉ tl.map Prod.fst := (List.nodup_cons.mp h6).1
    have h6tl : (tl.map Prod.fst).Nodup := (List.nodup_cons.mp h6).2
    cases hacq : AcquireResources view n req with
    | some view2 =>
      simp only [PackTryMore, hacq] at h
      obtain ⟨hstep1, hstep2, hstep3⟩ :=
        packInv_acquire_set h1 h2 h3 h4 hi hr hnone hacq
      have hlen2 : (res.set i (some n)).length = reqs.length := by
        rw [List.length_set]; exact h4
      have h5tl : ∀ p ∈ tl, p.1 < reqs.length ∧
          reqs.getD p.1 default = p.2 ∧
          (res.set i (some n)).getD p.1 none = none := by
        intro p hp
        obtain ⟨hp1, hp2, hp3⟩ := h5 p (List.mem_cons_of_mem _ hp)
        refine ⟨hp1, hp2, ?_⟩
        have hne : i ≠ p.1 := by
          intro hcontra
          exact hnotin (hcontra ▸ List.mem_map_of_mem Prod.fst hp)
        rw [getD_set_ne res i p.1 (some n) none hne]
        exact hp3
      obtain ⟨c1, c2, c3, c4, c5, c6, c7⟩ :=
        ih view2 (res.set i (some n)) q' view' res' h
          hstep1 hstep2 hstep3 hlen2 h5tl h6tl
      refine ⟨c1, c2, c3, c4, c5, ?_, ?_⟩
      · exact c6.trans (List.sublist_cons_self i (tl.map Prod.fst))
      · intro j hj
        have hji : i ≠ j := by
          intro hc
          exact hj (hc ▸ List.mem_cons_self i (tl.map Prod.fst))
        have hjtl : j ∉ tl.map Prod.fst :=
          fun hc => hj (List.mem_cons_of_mem _ hc)
        rw [c7 j hjtl, getD_set_ne res i j (some n) none hji]
    | none =>
      rcases hpt : PackTryMore n tl view res with ⟨q2, view2, res2⟩
      simp only [PackTryMore, hacq, hpt, Prod.mk.injEq] at h
      obtain ⟨hq, hv, hres⟩ := h
      subst hq; subst hv; subst hres
      obtain ⟨c1, c2, c3, c4, c5, c6, c7⟩ :=
        ih view res q2 view2 res2 hpt h1 h2 h3 h4
          (fun p hp => h5 p (List.mem_cons_of_mem _ hp)) h6tl
      refine ⟨c1, c2, c3, c4, ?_, ?_, ?_⟩
      · intro p hp
        rcases List.mem_cons.mp hp with heq | hp2
        · subst heq
          exact ⟨hi, hr, (c7 i hnotin).trans hnone⟩
        · exact c5 p hp2
      · exact List.Sublist.cons₂ i c6
      · intro j hj
        exact c7 j (fun hc => hj (List.mem_cons_of_mem _ hc))

theorem packLoop_inv (reqs : List ResourceRequest) (v0 : ClusterView) :
    ∀ (q : List (ℕ × ResourceRequest)) (c : List ℕ) (view : ClusterView)
      (res : List (Option ℕ)) (qF : List (ℕ × ResourceRequest))
      (vF : ClusterView) (resF : List (Option ℕ)),
      PackLoop q c view res = some (qF, vF, resF) →
      applyRel (assignedPairs res reqs) view = v0 →
      view.map Prod.fst = v0.map Prod.fst →
      (∀ p ∈ assignedPairs res reqs, (view.lookup p.1).isSome) →
      res.length = reqs.length →
      (∀ p ∈ q, p.1 < reqs.length ∧ reqs.getD p.1 default = p.2 ∧
        res.getD p.1 none = none) →
      (q.map Prod.fst).Nodup →
      applyRel (assignedPairs resF reqs) vF = v0 ∧
        vF.map Prod.fst = v0.map Prod.fst ∧
        (∀ p ∈ assignedPairs resF reqs, (vF.lookup p.1).isSome) ∧
        resF.length = reqs.length := by
  intro q c view res
  induction q, c, view, res using PackLoop.induct with
  | case1 c v res =>
    intro qF vF resF h h1 h2 h3 h4 h5 h6
    rw [PackLoop] at h
    simp only [Option.some.injEq, Prod.mk.injEq] at h
    obtain ⟨-, hv, hr⟩ := h
    subst hv; subst hr
    exact ⟨h1, h2, h3, h4⟩
  | case2 i req queue c v res hbest =>
    intro qF vF resF h h1 h2 h3 h4 h5 h6
    simp only [PackLoop, hbest] at h
    exact Option.noConfusion h
  | case3 i req queue c v res hbest =>
    intro qF vF resF h h1 h2 h3 h4 h5 h6
    simp only [PackLoop, hbest] at h
    simp only [Option.some.injEq, Prod.mk.injEq] at h
    obtain ⟨-, hv, hr⟩ := h
    subst hv; subst hr
    exact ⟨h1, h2, h3, h4⟩
  | case4 i req queue c v res best hbest hacq =>
    intro qF vF resF h h1 h2 h3 h4 h5 h6
    simp only [PackLoop, hbest, hacq] at h
    exact Option.noConfusion h
  | case5 i req queue c v res best hbest view2 hacq queue2 view3 result3 hpt ih =>
    intro qF vF resF h h1 h2 h3 h4 h5 h6
    simp only [PackLoop, hbest, hacq, hpt] at h
    obtain ⟨hi, hr, hnone⟩ := h5 (i, req) (List.mem_cons_self _ _)
    rw [List.map_cons] at h6
    have hnotin : i ∉ queue.map Prod.fst := (List.nodup_cons.mp h6).1
    have h6tl : (queue.map Prod.fst).Nodup := (List.nodup_cons.mp h6).2
    obtain ⟨hs1, hs2, hs3⟩ :=
      packInv_acquire_set h1 h2 h3 h4 hi hr hnone hacq
    have hlen2 : (res.set i (some best)).length = reqs.length := by
      rw [List.length_set]; exact h4
    have h5tl : ∀ p ∈ queue, p.1 < reqs.length ∧
        reqs.getD p.1 default = p.2 ∧
        (res.set i (some best)).getD p.1 none = none := by
      intro p hp
      obtain ⟨hp1, hp2, hp3⟩ := h5 p (List.mem_cons_of_mem _ hp)
      refine ⟨hp1, hp2, ?_⟩
      have hne : i ≠ p.1 := by
        intro hcontra
        exact hnotin (hcontra ▸ List.mem_map_of_mem Prod.fst hp)
      rw [getD_set_ne res i p.1 (some best) none hne]
      exact hp3
    obtain ⟨c1, c2, c3, c4, c5, c6, c7⟩ :=
      packTryMore_inv reqs v0 best queue view2 (res.set i (some best))
        queue2 view3 result3 hpt hs1 hs2 hs3 hlen2 h5tl h6tl
    exact ih qF vF resF h c1 c2 c3 c4 c5 (c6.nodup h6tl)

theorem buildQueue_mem :
    ∀ (reqs : List ResourceRequest) (k : ℕ) (p : ℕ × ResourceRequest),
      p ∈ buildQueue k reqs →
      k ≤ p.1 ∧ p.1 < k + reqs.length ∧
        reqs.getD (p.1 - k) default = p.2 := by
  intro reqs
  induction reqs with
  | nil =>
    intro k p hp
    exact absurd hp (by simp [buildQueue])
  | cons r rs ih =>
    intro k p hp
    rw [buildQueue] at hp
    rcases List.mem_cons.mp hp with heq | hp2
    · subst heq
      simp only [List.length_cons, Nat.sub_self, List.getD_cons_zero]
      exact ⟨le_refl k, by omega, trivial⟩
    · obtain ⟨h1, h2, h3⟩ := ih (k + 1) p hp2
      refine ⟨Nat.le_of_succ_le h1, by simp only [List.length_cons]; omega, ?_⟩
      have hk : p.1 - k = (p.1 - (k + 1)) + 1 := by omega
      rw [hk, List.getD_cons_succ]
      exact h3

theorem buildQueue_map_fst :
    ∀ (reqs : List ResourceRequest) (k : ℕ),
      (buildQueue k reqs).map Prod.fst = List.range' k reqs.length := by
  intro reqs
  induction reqs with
  | nil => intro k; rfl
  | cons r rs ih =>
    intro k
    rw [buildQueue, List.map_cons, ih (k + 1), List.length_cons,
      List.range'_succ k rs.length 1]

theorem getD_replicate_none :
    ∀ (m i : ℕ), (List.replicate m (none : Option ℕ)).getD i none = none := by
  intro m
  induction m with
  | zero => intro i; cases i <;> rfl
  | succ m ih =>
    intro i
    cases i with
    | zero => rfl
    | succ i => exact ih i

theorem packSchedule_view {reqs : List ResourceRequest} {cands : List ℕ}
    {view : ClusterView} {r : SchedulingResult} {v2 : ClusterView}
    (h : PackSchedule reqs cands view = some (r, v2)) : v2 = view := by
  unfold PackSchedule at h
  cases hloop : PackLoop (buildQueue 0 reqs) cands view
      (List.replicate reqs.length none) with
  | none =>
    simp only [hloop] at h
    exact Option.noConfusion h
  | some p =>
    obtain ⟨qF, vF, resF⟩ := p
    simp only [hloop] at h
    have h1 : applyRel
        (assignedPairs (List.replicate reqs.length none) reqs) view = view := by
      rw [assignedPairs_replicate_none]; rfl
    have h3 : ∀ p ∈ assignedPairs (List.replicate reqs.length none) reqs,
        (view.lookup p.1).isSome := by
      intro p hp
      rw [assignedPairs_replicate_none] at hp
      exact absurd hp (List.not_mem_nil p)
    have h5 : ∀ p ∈ buildQueue 0 reqs, p.1 < reqs.length ∧
        reqs.getD p.1 default = p.2 ∧
        (List.replicate reqs.length (none : Option ℕ)).getD p.1 none =
          none := by
      intro p hp
      obtain ⟨-, hlt, hgd⟩ := buildQueue_mem reqs 0 p hp
      exact ⟨by simpa using hlt, by simpa using hgd, getD_replicate_none _ _⟩
    have h6 : ((buildQueue 0 reqs).map Prod.fst).Nodup := by
      rw [buildQueue_map_fst]
      exact List.nodup_range' 0 reqs.length
    obtain ⟨c1, c2, c3, c4⟩ :=
      packLoop_inv reqs view (buildQueue 0 reqs) cands view
        (List.replicate reqs.length none) qF vF resF hloop h1 rfl h3
        (List.length_replicate _ _) h5 h6
    have hrel := rtdr_eq_applyRel resF reqs vF (le_of_eq c4) c3
    rw [c1] at hrel
    simp only [hrel] at h
    split at h
    · exact (Prod.ext_iff.mp (Option.some_injective _ h)).2.symm
    · exact (Prod.ext_iff.mp (Option.some_injective _ h)).2.symm

/-- C1: for every `Schedule` call with strategy `PACK` or `SPREAD` that
returns, every provisional resource acquisition made on the shared cluster
view during the call has been released before the call returns, on every
exit path (`SUCCESS`, `FAILED`, or the mid-queue stop), so the returned
cluster view — each node's available amount in every dimension — equals the
view the call started from. -/
theorem schedule_pack_spread_restores_view
    {reqs : List ResourceRequest} {t : SchedulingType} {view : ClusterView}
    {f : Option (ℕ → Bool)} {r : SchedulingResult} {view2 : ClusterView}
    (ht : t = SchedulingType.PACK ∨ t = SchedulingType.SPREAD)
    (h : Schedule reqs t view f = some (r, view2)) :
    view2 = view := by
  simp only [Schedule] at h
  split at h
  · exact (Prod.ext_iff.mp (Option.some_injective _ h)).2.symm
  · split at h
    · rename_i hc
      rcases ht with ht | ht <;> rw [ht] at hc <;>
        exact SchedulingType.noConfusion hc
    · cases hsort : SortRequiredResources reqs with
      | none =>
        simp only [hsort] at h
        exact Option.noConfusion h
      | some sorted =>
        simp only [hsort] at h
        cases hdisp : DispatchSorted t
            (sorted.map fun i => reqs.getD i default)
            (FilterCandidateNodes view f) view with
        | none =>
          simp only [hdisp] at h
          exact Option.noConfusion h
        | some p =>
          obtain ⟨r2, v2⟩ := p
          simp only [hdisp] at h
          have hv : v2 = view := by
            rcases ht with ht | ht <;> subst ht
            · exact packSchedule_view (by simpa [DispatchSorted] using hdisp)
            · exact spreadSchedule_view (by simpa [DispatchSorted] using hdisp)
          have hout := Prod.ext_iff.mp (Option.some_injective _ h)
          have hv2 : v2 = view2 := hout.2
          rw [← hv2]
          exact hv

/-- Witness for C1 at a concrete single-bundle `PACK` run: the acquisition
made while placing the bundle is released, so the returned view equals the
input view. -/
theorem schedule_pack_spread_restores_view_witness :
    (SchedulingType.PACK = SchedulingType.PACK ∨
      SchedulingType.PACK = SchedulingType.SPREAD) ∧
    Schedule [⟨[2, 0, 0, 0], []⟩] SchedulingType.PACK
        [(1, ⟨[⟨4, 4⟩, ⟨4, 4⟩, ⟨4, 4⟩, ⟨4, 4⟩], []⟩)] none =
      some ((SchedulingResultStatus.SUCCESS, [some 1]),
        [(1, ⟨[⟨4, 4⟩, ⟨4, 4⟩, ⟨4, 4⟩, ⟨4, 4⟩], []⟩)]) ∧
    ([(1, ⟨[⟨4, 4⟩, ⟨4, 4⟩, ⟨4, 4⟩, ⟨4, 4⟩], []⟩)] : ClusterView) =
      [(1, ⟨[⟨4, 4⟩, ⟨4, 4⟩, ⟨4, 4⟩, ⟨4, 4⟩], []⟩)] := by
  have hrun : Schedule [⟨[2, 0, 0, 0], []⟩] SchedulingType.PACK
      [(1, ⟨[⟨4, 4⟩, ⟨4, 4⟩, ⟨4, 4⟩, ⟨4, 4⟩], []⟩)] none =
      some ((SchedulingResultStatus.SUCCESS, [some 1]),
        [(1, ⟨[⟨4, 4⟩, ⟨4, 4⟩, ⟨4, 4⟩, ⟨4, 4⟩], []⟩)]) := by
    norm_num [Schedule, FilterCandidateNodes, SortRequiredResources,
      compareRR, customCompareLoop, predefCompareLoop, extraResourcesSet,
      List.insertionSort, List.orderedInsert, PackSchedule, PackLoop,
      PackTryMore, buildQueue, AcquireResources, ReleaseResources,
      ReleaseTemporarilyDeductedResources, viewUpdate, nodeAdjust,
      adjustPredef, addCustomAvail, IsAvailable, predefIsAvailable,
      GetBestNode, GetBestNodeLoop, Score, ScorePredefLoop, ScoreCustomLoop,
      Calculate, DispatchSorted, SortSchedulingResult, scatterNodes,
      List.lookup, List.find?, CPU, MEM, GPU, OBJECT_STORE_MEM,
      PredefinedResources_MAX]
      <;> exact fun h => SchedulingType.noConfusion h
  exact ⟨Or.inl rfl, hrun,
    schedule_pack_spread_restores_view (Or.inl rfl) hrun⟩

end Gcs
